import Mathlib

/-!
The package legrch/logger: a verification development.

A shallow embedding of the Go package `logger` (colored slog handler, legacy
adapter, configuration-driven constructor, global accessor) together with the
properties its specification states about it.

Conventions of the embedding

* `slog.Level` is a Go `int`; it is modelled by `Int` (the values that occur are
  far from the machine bounds, and only comparisons are made on them).
* A Go slice whose nil-ness is observable (the result of `extractMsgAndAttrs`)
  is an `Option (List _)`, with `none` for the nil slice.  Every other slice is
  a `List`.
* A dynamically typed Go value (`any`) is a value of the inductive type `Any`.
* Functions of the Go standard library are modelled here from their documented
  behaviour (`fmt.Sprint`, `strings.ToLower`, `slog.Level.String`) or taken as
  fields of an environment record `Env` (time formatting, call-site lookup, JSON
  serialisation).
* The boundary with `log/slog` is the trace of levelled calls made on
  `slog.Logger` values (`World.calls`).  What `log/slog` does with a call (ask
  `Enabled`, build the record, call `Handle`) is `Sinks.deliver`, which acts on
  the mock objects and on the `Write` calls writers receive; `exec` runs an
  operation of the package and delivers the calls it made.
* `json.MarshalIndent` is a field of `Env`; `goMarshalIndent` is its behaviour
  on a `map[string]any` (keys sorted, one entry per line), with the quoting of
  strings and the encoding of values of other types as parameters (`JSONCodec`).
-/

set_option autoImplicit false

namespace Logger

/-! ## Levels (log/slog) -/

/-- The type `slog.Level`, a Go `int`. -/
abbrev Level := Int

/-- The constant `slog.LevelDebug`. -/
def LevelDebug : Level := -4

/-- The constant `slog.LevelInfo`. -/
def LevelInfo : Level := 0

/-- The constant `slog.LevelWarn`. -/
def LevelWarn : Level := 4

/-- The constant `slog.LevelError`. -/
def LevelError : Level := 8

/-! ## Dynamically typed values -/

/-- A Go value of static type `any`: the untyped nil, a string, an integer, a
boolean, or a value of some other dynamic type, which carries the text that the
`fmt` package prints for it with the verb `%v`. -/
inductive Any where
  | nil
  | str (s : String)
  | int (i : Int)
  | bool (b : Bool)
  | other (display : String)
  deriving DecidableEq, Repr

/-- The call `fmt.Sprint(a)` with a single operand (equally, the verb `%v`). -/
def Sprint : Any → String
  | .nil => "<nil>"
  | .str s => s
  | .int i => toString i
  | .bool b => if b then "true" else "false"
  | .other d => d

/-- The type assertion `a.(string)` in its two-result form `(s, ok)`. -/
def assertString : Any → String × Bool
  | .str s => (s, true)
  | _ => ("", false)

/-! ## adapter.go: extraction of message and attributes -/

/-- The loop `for i := 1; i < len(args); i++ { attrs = append(attrs, args[i]) }`
of `extractMsgAndAttrs`, started at index `i` with the slice `attrs` built so
far. -/
def extractLoop (args : List Any) (i : Nat) (attrs : List Any) : List Any :=
  if h : i < args.length then
    extractLoop args (i + 1) (attrs ++ [args.get ⟨i, h⟩])
  else
    attrs
termination_by args.length - i

/-- The function `extractMsgAndAttrs(args []any) (msg string, attrs []any)`.
The second component is `none` for the nil slice. -/
def extractMsgAndAttrs (args : List Any) : String × Option (List Any) :=
  match args with
  | [] => ("", none)
  | a0 :: _ =>
    let (s, ok) := assertString a0
    let msg := if !ok then Sprint a0 else s
    -- attrs = make([]any, 0, len(args)-1), then the loop
    (msg, some (extractLoop args 1 []))

/-! ## color.go: the colored handler -/

/-- ANSI code `reset`. -/
def reset : String := "\x1b[0m"
/-- ANSI code `red`. -/
def red : String := "\x1b[31m"
/-- ANSI code `green`. -/
def green : String := "\x1b[32m"
/-- ANSI code `yellow`. -/
def yellow : String := "\x1b[33m"
/-- ANSI code `blue`. -/
def blue : String := "\x1b[34m"
/-- ANSI code `cyan`. -/
def cyan : String := "\x1b[36m"
/-- ANSI code `darkGray`. -/
def darkGray : String := "\x1b[90m"

/-- An `io.Writer`, named by its identity: the process standard output, the
standard error (where the default logger of `log/slog` writes), or some other
writer (a buffer of a caller). -/
inductive Writer where
  | stdout
  | stderr
  | buffer (id : Nat)
  deriving DecidableEq, Repr

/-- The struct `slog.HandlerOptions`, with the two fields the package sets and
reads.  `Level` is a `slog.Leveler`; `none` is the nil interface value and
`some l` a leveler whose `Level()` is `l`. -/
structure HandlerOptions where
  AddSource : Bool := false
  Level : Option Logger.Level := none
  deriving DecidableEq, Repr

/-- The struct `slog.Attr`.  `Value` holds what `attr.Value.Any()` returns. -/
structure Attr where
  Key : String
  Value : Any
  deriving DecidableEq, Repr

/-- The zero value of `slog.Attr`, which fills a slice made by `make`. -/
def Attr.zero : Attr := { Key := "", Value := Any.nil }

/-- A `time.Time`: an instant and the offset of its zone. -/
structure Time where
  unixNano : Int
  zoneOffset : Int
  deriving DecidableEq, Repr

/-- The struct `slog.Record`.  `attrs` is the sequence `r.Attrs` iterates over,
so `r.NumAttrs()` is its length. -/
structure Record where
  Time : Logger.Time
  Message : String
  Level : Logger.Level
  PC : Nat
  attrs : List Attr
  deriving DecidableEq, Repr

/-- The struct `runtime.Frame`, with the two fields the package reads. -/
structure Frame where
  File : String
  Line : Int
  deriving DecidableEq, Repr

/-- The content of a Go `map[string]any`, one entry per key. -/
abbrev GoMap := List (String × Any)

/-- The assignment `m[k] = v`: the value of an existing key is replaced, a new
key gets a new entry. -/
def GoMap.set : GoMap → String → Any → GoMap
  | [], k, v => [(k, v)]
  | (k0, v0) :: m, k, v => if k0 = k then (k, v) :: m else (k0, v0) :: GoMap.set m k v

/-- The standard-library functions the handler calls and this development does
not define: `time.Time.Format(layout)`, the frame that
`runtime.CallersFrames([]uintptr{pc}).Next()` returns, and
`json.MarshalIndent(m, prefix, indent)` (its bytes, or its error). -/
structure Env where
  timeFormat : Time → String → String
  callersFrame : Nat → Frame
  marshalIndent : GoMap → String → String → Except String String

/-- The constant `time.RFC3339`. -/
def RFC3339 : String := "2006-01-02T15:04:05Z07:00"

/-- The method `slog.Level.String`: the name of the nearest named level at or
below `l`, followed by the signed offset from it when that is not zero. -/
def levelString (l : Level) : String :=
  let str := fun (base : String) (val : Int) =>
    if val = 0 then base else base ++ (if 0 ≤ val then "+" else "") ++ toString val
  if l < LevelInfo then str "DEBUG" (l - LevelDebug)
  else if l < LevelWarn then str "INFO" (l - LevelInfo)
  else if l < LevelError then str "WARN" (l - LevelWarn)
  else str "ERROR" (l - LevelError)

/-- The builtin `copy(dst, src)`: the content of `dst` afterwards. -/
def copy {α : Type} (dst src : List α) : List α :=
  src.take dst.length ++ dst.drop src.length

/-- The call `copy(dst[off:], src)`: the content of `dst` afterwards. -/
def copyAt {α : Type} (dst : List α) (off : Nat) (src : List α) : List α :=
  dst.take off ++ copy (dst.drop off) src

/-- The struct `ColoredHandler`.  The mutex `mu` is not represented: it holds no
data, and every handler value gets a fresh one. -/
structure ColoredHandler where
  opts : HandlerOptions
  w : Writer
  groups : List String := []
  attrs : List Attr := []
  useJSON : Bool
  deriving DecidableEq, Repr

/-- The function `NewColoredHandler(w, opts, useJSON)`; `opts` may be nil. -/
def NewColoredHandler (w : Writer) (opts : Option HandlerOptions) (useJSON : Bool) :
    ColoredHandler :=
  let opts := match opts with
    | none => ({} : HandlerOptions)
    | some o => o
  { opts := opts, w := w, useJSON := useJSON }

/-- The method `ColoredHandler.Enabled`. -/
def ColoredHandler.Enabled (h : ColoredHandler) (level : Level) : Bool :=
  let minLevel := h.opts.Level
  match minLevel with
  | none => true
  | some l => decide (level ≥ l)

/-- The function `getLevelColor(level)`: color code and level text. -/
def getLevelColor (level : Level) : String × String :=
  if level ≥ LevelError then (red, "ERROR")
  else if level ≥ LevelWarn then (yellow, "WARN ")
  else if level ≥ LevelInfo then (green, "INFO ")
  else (blue, "DEBUG")

/-- The map that `handleJSON` builds before it serialises it. -/
def jsonFields (env : Env) (h : ColoredHandler) (r : Record) : GoMap :=
  let m : GoMap := []
  let m := m.set "time" (Any.str (env.timeFormat r.Time RFC3339))
  let m := m.set "level" (Any.str (levelString r.Level))
  let m := m.set "msg" (Any.str r.Message)
  let m :=
    if h.opts.AddSource && r.PC != 0 then
      let f := env.callersFrame r.PC
      if f.File != "" then
        m.set "source" (Any.str (f.File ++ ":" ++ toString f.Line))
      else m
    else m
  let m := h.attrs.foldl (fun m attr => m.set attr.Key attr.Value) m
  r.attrs.foldl (fun m attr => m.set attr.Key attr.Value) m

/-- The method `ColoredHandler.handleJSON`: the error it returns (`none` for
nil) and the texts of the `Write` calls it makes on `h.w`, in order (each
`fmt.Fprintf` makes one). -/
def ColoredHandler.handleJSON (env : Env) (h : ColoredHandler) (r : Record) :
    Option String × List String :=
  let m := jsonFields env h r
  match env.marshalIndent m "" "  " with
  | .error err => (some err, [])
  | .ok b =>
    let (levelColor, _) := getLevelColor r.Level
    (none, [levelColor ++ b ++ reset ++ "\n"])

/-- The text of one attribute line of the plain mode. -/
def attrLine (attr : Attr) : String :=
  "      " ++ cyan ++ attr.Key ++ reset ++ ": " ++ Sprint attr.Value ++ "\n"

/-- The method `ColoredHandler.Handle`: the error it returns (`none` for nil)
and the texts of the `Write` calls it makes on `h.w`, in order (each
`fmt.Fprintf` makes one). -/
def ColoredHandler.Handle (env : Env) (h : ColoredHandler) (r : Record) :
    Option String × List String :=
  if h.useJSON then h.handleJSON env r
  else
    let timeStr := env.timeFormat r.Time "15:04:05.000"
    let (levelColor, levelStr) := getLevelColor r.Level
    let levelStr := levelColor ++ levelStr ++ reset
    let line := [timeStr ++ " " ++ levelStr ++ " " ++ r.Message ++ "\n"]
    let source :=
      if h.opts.AddSource && r.PC != 0 then
        let f := env.callersFrame r.PC
        if f.File != "" then
          ["    " ++ darkGray ++ "Source: " ++ f.File ++ ":" ++ toString f.Line ++ reset ++ "\n"]
        else []
      else []
    let attributes :=
      if h.attrs.length > 0 || r.attrs.length > 0 then
        ["    " ++ darkGray ++ "Attributes:" ++ reset ++ "\n"]
          ++ h.attrs.map attrLine ++ r.attrs.map attrLine
      else []
    (none, line ++ source ++ attributes)

/-- The method `ColoredHandler.WithAttrs`: the handler value `h2` it builds. -/
def ColoredHandler.WithAttrs (h : ColoredHandler) (attrs : List Attr) : ColoredHandler :=
  let h2 : ColoredHandler :=
    { opts := h.opts, w := h.w, groups := [] ++ h.groups, useJSON := h.useJSON }
  let a := List.replicate (h.attrs.length + attrs.length) Attr.zero
  let a := copy a h.attrs
  let a := copyAt a h.attrs.length attrs
  { h2 with attrs := a }

/-- The method `ColoredHandler.WithGroup`: the handler value `h2` it builds. -/
def ColoredHandler.WithGroup (h : ColoredHandler) (name : String) : ColoredHandler :=
  let h2 : ColoredHandler :=
    { opts := h.opts, w := h.w, attrs := [] ++ h.attrs, useJSON := h.useJSON }
  let g := List.replicate (h.groups.length + 1) ""
  let g := copy g h.groups
  let g := g.set h.groups.length name
  { h2 with groups := g }

/-- The handler objects allocated so far; a `*ColoredHandler` is an index into
the list. -/
structure Heap where
  handlers : List ColoredHandler := []
  deriving DecidableEq, Repr

/-- The handler a pointer refers to, if it refers to one. -/
def Heap.deref (s : Heap) (p : Nat) : Option ColoredHandler :=
  s.handlers[p]?

/-- Allocation of a new handler object: its address and the heap afterwards. -/
def Heap.alloc (s : Heap) (h : ColoredHandler) : Nat × Heap :=
  (s.handlers.length, { s with handlers := s.handlers ++ [h] })

/-- The call `h.WithAttrs(attrs)` on the pointer `h`: the pointer returned and
the heap afterwards (`none` when `h` refers to no handler). -/
def Heap.WithAttrs (s : Heap) (h : Nat) (attrs : List Attr) : Option (Nat × Heap) :=
  match s.deref h with
  | none => none
  | some hv => some (s.alloc (hv.WithAttrs attrs))

/-- The call `h.WithGroup(name)` on the pointer `h`: the pointer returned and
the heap afterwards (`none` when `h` refers to no handler). -/
def Heap.WithGroup (s : Heap) (h : Nat) (name : String) : Option (Nat × Heap) :=
  match s.deref h with
  | none => none
  | some hv => some (s.alloc (hv.WithGroup name))

/-- The call `h.Handle(ctx, r)` on the pointer `h`: the error returned and the
writes made (`none` when `h` refers to no handler). -/
def Heap.Handle (env : Env) (s : Heap) (h : Nat) (r : Record) :
    Option (Option String × List String) :=
  match s.deref h with
  | none => none
  | some hv => some (hv.Handle env r)

/-! ## logger.go: configuration and constructor -/

/-- The struct `Config`. -/
structure Config where
  Level : String
  Format : String
  EnableCaller : Bool
  EnableStacktrace : Bool
  EnableColors : Bool
  Environment : String
  deriving DecidableEq, Repr

/-- The function `unicode.ToLower` on the runes that matter for a comparison
with an ASCII word: the ASCII capitals, and the two other runes whose lower case
is an ASCII letter (KELVIN SIGN to k, LATIN CAPITAL LETTER I WITH DOT ABOVE to
i).  Every other rune is kept; Go maps such a rune to a rune outside ASCII. -/
def toLowerRune (c : Char) : Char :=
  if c.val = 0x212A then 'k'
  else if c.val = 0x130 then 'i'
  else c.toLower

/-- The function `strings.ToLower`, rune by rune. -/
def ToLower (s : String) : String :=
  String.mk (s.data.map toLowerRune)

/-- The function `isLocalEnvironment(env)`. -/
def isLocalEnvironment (env : String) : Bool :=
  let env := ToLower env
  env == "development" || env == "local" || env == "dev"

/-- The function `parseLogLevel(level)`: the level and the error (`none` for
nil; an error is represented by its message). -/
def parseLogLevel (level : String) : Level × Option String :=
  if level = "debug" then (LevelDebug, none)
  else if level = "info" then (LevelInfo, none)
  else if level = "warn" then (LevelWarn, none)
  else if level = "error" then (LevelError, none)
  else (LevelInfo, some ("unknown log level: " ++ level))

/-- The handlers a logger of this package is built on: a `*ColoredHandler`, one
of the two handlers of `log/slog` made by `slog.NewTextHandler(w, opts)` and
`slog.NewJSONHandler(w, opts)`, a `*MockLogger` (named by its address among the
mock objects), or the handler of the logger `slog.Default()` returns. -/
inductive Handler where
  | colored (h : ColoredHandler)
  | text (w : Writer) (opts : HandlerOptions)
  | json (w : Writer) (opts : HandlerOptions)
  | mock (ref : Nat)
  | slogDefault
  deriving DecidableEq, Repr

/-- A `*slog.Logger` made by `slog.New(handler)`. -/
structure SlogLogger where
  handler : Handler
  deriving DecidableEq, Repr

/-- The function `New(cfg)`: the logger (`none` for nil) and the error (`none`
for nil; an error is represented by its message). -/
def New (cfg : Config) : Option SlogLogger × Option String :=
  let (level, err) := parseLogLevel cfg.Level
  match err with
  | some e => (none, some ("invalid log level: " ++ e))
  | none =>
    let opts : HandlerOptions := { Level := some level, AddSource := cfg.EnableCaller }
    let useColors := cfg.EnableColors || isLocalEnvironment cfg.Environment
    let handler : Handler :=
      if cfg.Format == "console" && useColors then
        Handler.colored (NewColoredHandler Writer.stdout (some opts) false)
      else if cfg.Format == "json" && useColors then
        Handler.colored (NewColoredHandler Writer.stdout (some opts) true)
      else if cfg.Format == "console" then
        Handler.text Writer.stdout opts
      else
        Handler.json Writer.stdout opts
    (some { handler := handler }, none)

/-! ## global.go and init.go: the global logger -/

/-- A levelled call `logger.Debug/Info/Warn/Error(msg, args...)` made on a
`*slog.Logger`. -/
structure LogCall where
  logger : SlogLogger
  level : Level
  msg : String
  args : List Any
  deriving DecidableEq, Repr

/-- The state the package acts on: the package variable `defaultLogger` (`none`
for nil) and the levelled calls made so far on `slog.Logger` values, in
order. -/
structure World where
  defaultLogger : Option SlogLogger := none
  calls : List LogCall := []
  deriving DecidableEq, Repr

/-- The method `(*slog.Logger).Debug`, as a call on the boundary. -/
def SlogLogger.Debug (l : SlogLogger) (msg : String) (args : List Any) (w : World) : World :=
  { w with calls := w.calls ++ [{ logger := l, level := LevelDebug, msg := msg, args := args }] }

/-- The method `(*slog.Logger).Info`, as a call on the boundary. -/
def SlogLogger.Info (l : SlogLogger) (msg : String) (args : List Any) (w : World) : World :=
  { w with calls := w.calls ++ [{ logger := l, level := LevelInfo, msg := msg, args := args }] }

/-- The method `(*slog.Logger).Warn`, as a call on the boundary. -/
def SlogLogger.Warn (l : SlogLogger) (msg : String) (args : List Any) (w : World) : World :=
  { w with calls := w.calls ++ [{ logger := l, level := LevelWarn, msg := msg, args := args }] }

/-- The method `(*slog.Logger).Error`, as a call on the boundary. -/
def SlogLogger.Error (l : SlogLogger) (msg : String) (args : List Any) (w : World) : World :=
  { w with calls := w.calls ++ [{ logger := l, level := LevelError, msg := msg, args := args }] }

/-- The function `SetDefault(logger)`. -/
def SetDefault (logger : Option SlogLogger) (w : World) : World :=
  { w with defaultLogger := logger }

/-- The constant `FormatJSON`. -/
def FormatJSON : String := "json"

/-- The constant `FormatConsole`. -/
def FormatConsole : String := "console"

/-- The function `Init(cfg)`: the error returned and the state afterwards.  `New`
returns a logger whenever it returns no error; the case of neither, in which Go
would stop at the nil dereference of `log.Info`, is reported as an error. -/
def Init (cfg : Config) (w : World) : Option String × World :=
  match New cfg with
  | (_, some err) => (some ("failed to create logger: " ++ err), w)
  | (none, none) => (some "nil pointer dereference", SetDefault none w)
  | (some log, none) =>
    let w := SetDefault (some log) w
    let w := log.Info "Logger initialized"
      [Any.str "level", Any.str cfg.Level,
       Any.str "format", Any.str cfg.Format,
       Any.str "enableCaller", Any.bool cfg.EnableCaller,
       Any.str "enableStacktrace", Any.bool cfg.EnableStacktrace,
       Any.str "environment", Any.str cfg.Environment,
       Any.str "enableColors", Any.bool cfg.EnableColors] w
    (none, w)

/-- The configuration `cfg` that `InitFromEnv(env)` builds. -/
def InitFromEnv.cfg (env : String) : Config :=
  let format := FormatJSON
  let enableColors := false
  let (format, enableColors) :=
    if env == "development" || env == "local" || env == "dev" then
      (FormatConsole, true)
    else (format, enableColors)
  { Level := "info",
    Format := format,
    EnableCaller := true,
    EnableStacktrace := true,
    EnableColors := enableColors,
    Environment := env }

/-- The function `InitFromEnv(env)`. -/
def InitFromEnv (env : String) (w : World) : Option String × World :=
  Init (InitFromEnv.cfg env) w

/-! ## adapter.go: the legacy adapter -/

/-- The struct `LegacyAdapter`. -/
structure LegacyAdapter where
  logger : SlogLogger
  deriving DecidableEq, Repr

/-- The arguments that the spread `attrs...` of a slice passes to a variadic
function; a nil slice passes none. -/
def spread (attrs : Option (List Any)) : List Any :=
  match attrs with
  | none => []
  | some l => l

/-- The method `LegacyAdapter.Debug`. -/
def LegacyAdapter.Debug (l : LegacyAdapter) (args : List Any) (w : World) : World :=
  if args.length == 0 then w
  else
    let (msg, attrs) := extractMsgAndAttrs args
    l.logger.Debug msg (spread attrs) w

/-- The method `LegacyAdapter.Info`. -/
def LegacyAdapter.Info (l : LegacyAdapter) (args : List Any) (w : World) : World :=
  if args.length == 0 then w
  else
    let (msg, attrs) := extractMsgAndAttrs args
    l.logger.Info msg (spread attrs) w

/-- The method `LegacyAdapter.Warn`. -/
def LegacyAdapter.Warn (l : LegacyAdapter) (args : List Any) (w : World) : World :=
  if args.length == 0 then w
  else
    let (msg, attrs) := extractMsgAndAttrs args
    l.logger.Warn msg (spread attrs) w

/-- The method `LegacyAdapter.Error`. -/
def LegacyAdapter.Error (l : LegacyAdapter) (args : List Any) (w : World) : World :=
  if args.length == 0 then w
  else
    let (msg, attrs) := extractMsgAndAttrs args
    l.logger.Error msg (spread attrs) w

/-! ## Words of the specification -/

/-- The message the legacy calling convention makes of the first argument: the
argument itself when it is a string, otherwise its display text. -/
def messageOf (a : Any) : String :=
  match a with
  | Any.str s => s
  | _ => Sprint a

/-- The level names the specification lists for the configuration. -/
def levelNames : List String := ["debug", "info", "warn", "error"]

/-- The names of the local-environment class. -/
def localNames : List String := ["development", "local", "dev"]

/-- Equality of two strings ignoring letter case: they agree once both are put
in lower case. -/
def equalsIgnoreCase (a b : String) : Bool :=
  ToLower a == ToLower b

/-- Membership of a name in the local-environment class, as the specification
words it: a case-insensitive match against the three names. -/
def inLocalClass (env : String) : Bool :=
  localNames.any (fun name => equalsIgnoreCase env name)

/-- The effective color usage of a configuration, as the specification words
it: the explicit flag, or an environment of the local-environment class. -/
def effectiveColors (cfg : Config) : Bool :=
  cfg.EnableColors || inLocalClass cfg.Environment

/-- The handler options `New` builds for a configuration whose level parses. -/
def optsOf (cfg : Config) : HandlerOptions :=
  { Level := some (parseLogLevel cfg.Level).1, AddSource := cfg.EnableCaller }

/-- The text a writer has received through a sequence of `Write` calls: their
texts, one after the other. -/
def written : List String → String
  | [] => ""
  | t :: ts => t ++ written ts

/-- The first line of the plain mode for a record: time, colored level text,
message. -/
def messageLine (env : Env) (r : Record) : String :=
  env.timeFormat r.Time "15:04:05.000" ++ " "
    ++ ((getLevelColor r.Level).1 ++ (getLevelColor r.Level).2 ++ reset) ++ " "
    ++ r.Message ++ "\n"

/-- The header line of the attributes block of the plain mode. -/
def attributesHeader : String :=
  "    " ++ darkGray ++ "Attributes:" ++ reset ++ "\n"

/-! ## mock.go: the mock handler -/

/-- The struct `LogEntry`. -/
structure LogEntry where
  Level : Logger.Level
  Message : String
  Attrs : List Attr
  deriving DecidableEq, Repr

/-- The zero value of `LogEntry`, which fills a slice made by `make`. -/
def LogEntry.zero : LogEntry := { Level := 0, Message := "", Attrs := [] }

/-- The struct `MockLogger`, without its mutex. -/
structure MockLogger where
  logs : List LogEntry := []
  attrs : List Attr := []
  groups : List String := []
  deriving DecidableEq, Repr

/-- The method `MockLogger.Enabled`. -/
def MockLogger.Enabled (_l : MockLogger) (_level : Level) : Bool :=
  true

/-- The method `MockLogger.Handle`: the error returned (`none` for nil) and the
mock object afterwards. -/
def MockLogger.Handle (l : MockLogger) (r : Record) : Option String × MockLogger :=
  let attrs := List.replicate l.attrs.length Attr.zero
  let attrs := copy attrs l.attrs
  let attrs := r.attrs.foldl (fun attrs attr => attrs ++ [attr]) attrs
  (none, { l with logs := l.logs ++
    [{ Level := r.Level, Message := r.Message, Attrs := attrs }] })

/-- The method `MockLogger.GetLogs`. -/
def MockLogger.GetLogs (l : MockLogger) : List LogEntry :=
  let logs := List.replicate l.logs.length LogEntry.zero
  copy logs l.logs

/-- What the handlers act on: the mock objects allocated so far (a `*MockLogger`
is an index into the list) and the `Write` calls writers have received, in
order. -/
structure Sinks where
  mocks : List MockLogger := []
  writes : List (Writer × String) := []
  deriving DecidableEq, Repr

/-- The function `NewMockLogger()`: the logger returned and the sinks with the
new mock object. -/
def NewMockLogger (s : Sinks) : SlogLogger × Sinks :=
  let mock : MockLogger := { logs := [], attrs := [] }
  ({ handler := Handler.mock s.mocks.length }, { s with mocks := s.mocks ++ [mock] })

/-! ## log/slog: what a levelled call on a logger does -/

/-- The parts of `log/slog` this development does not define: for the n-th
levelled call, the time `time.Now()` and the program counter of the caller; the
attributes `Record.Add` makes of the arguments of a call; and the text that the
text handler, the JSON handler and the default handler write for a record. -/
structure SlogEnv where
  stamp : Nat → Time × Nat
  argsToAttrs : List Any → List Attr
  textHandle : HandlerOptions → Record → String
  jsonHandle : HandlerOptions → Record → String
  defaultHandle : Record → String

/-- The method `Enabled` of a handler.  The handlers of `log/slog` take the info
level as threshold when their options give none. -/
def Handler.Enabled : Handler → Level → Bool
  | .colored h, level => h.Enabled level
  | .text _ opts, level => decide (level ≥ opts.Level.getD LevelInfo)
  | .json _ opts, level => decide (level ≥ opts.Level.getD LevelInfo)
  | .mock _, _ => true
  | .slogDefault, level => decide (level ≥ LevelInfo)

/-- The method `Handle` of a handler, as an action on the sinks; the error it
returns is dropped, as `log/slog` drops it. -/
def Handler.Handle (se : SlogEnv) (env : Env) (hd : Handler) (r : Record) (s : Sinks) : Sinks :=
  match hd with
  | .colored h => { s with writes := s.writes ++ (h.Handle env r).2.map (fun t => (h.w, t)) }
  | .text w opts => { s with writes := s.writes ++ [(w, se.textHandle opts r)] }
  | .json w opts => { s with writes := s.writes ++ [(w, se.jsonHandle opts r)] }
  | .mock ref =>
    match s.mocks[ref]? with
    | none => s
    | some l => { s with mocks := s.mocks.set ref (l.Handle r).2 }
  | .slogDefault => { s with writes := s.writes ++ [(Writer.stderr, se.defaultHandle r)] }

/-- What `log/slog` does with the n-th levelled call: nothing when the handler
of the logger is not enabled for the level; otherwise it builds the record and
hands it to the handler. -/
def Sinks.deliver (se : SlogEnv) (env : Env) (n : Nat) (c : LogCall) (s : Sinks) : Sinks :=
  if c.logger.handler.Enabled c.level then
    let r : Record :=
      { Time := (se.stamp n).1, Message := c.msg, Level := c.level, PC := (se.stamp n).2,
        attrs := se.argsToAttrs c.args }
    c.logger.handler.Handle se env r s
  else s

/-- Delivery of a sequence of calls, the first of which is the n-th. -/
def Sinks.deliverFrom (se : SlogEnv) (env : Env) : Nat → List LogCall → Sinks → Sinks
  | _, [], s => s
  | n, c :: cs, s => Sinks.deliverFrom se env (n + 1) cs (s.deliver se env n c)

/-- One operation of the package on its state, followed by what `log/slog` does
with the levelled calls the operation made. -/
def exec (se : SlogEnv) (env : Env) (op : World → World) (p : World × Sinks) : World × Sinks :=
  let w := op p.1
  (w, p.2.deliverFrom se env p.1.calls.length (w.calls.drop p.1.calls.length))

/-! ## global.go: the global functions -/

/-- The function `Default()`. -/
def Default (w : World) : SlogLogger :=
  match w.defaultLogger with
  | none => { handler := Handler.slogDefault }
  | some l => l

/-- The global function `Debug(msg, args...)`. -/
def Debug (msg : String) (args : List Any) (w : World) : World :=
  (Default w).Debug msg args w

/-- The global function `Info(msg, args...)`. -/
def Info (msg : String) (args : List Any) (w : World) : World :=
  (Default w).Info msg args w

/-- The global function `Warn(msg, args...)`. -/
def Warn (msg : String) (args : List Any) (w : World) : World :=
  (Default w).Warn msg args w

/-- The global function `Error(msg, args...)`. -/
def Error (msg : String) (args : List Any) (w : World) : World :=
  (Default w).Error msg args w

/-- The four global levelled functions. -/
inductive GlobalFn where
  | Debug
  | Info
  | Warn
  | Error
  deriving DecidableEq, Repr

/-- The level a global levelled function logs at. -/
def GlobalFn.level : GlobalFn → Level
  | .Debug => LevelDebug
  | .Info => LevelInfo
  | .Warn => LevelWarn
  | .Error => LevelError

/-- A call of one of the global levelled functions. -/
structure GlobalCall where
  fn : GlobalFn
  msg : String
  args : List Any
  deriving DecidableEq, Repr

/-- The call, as an operation of the package. -/
def GlobalCall.run (c : GlobalCall) (w : World) : World :=
  match c.fn with
  | .Debug => Debug c.msg c.args w
  | .Info => Info c.msg c.args w
  | .Warn => Warn c.msg c.args w
  | .Error => Error c.msg c.args w

/-- A sequence of calls of the global levelled functions, each followed by what
`log/slog` does with it. -/
def runGlobal (se : SlogEnv) (env : Env) (calls : List GlobalCall) (p : World × Sinks) :
    World × Sinks :=
  calls.foldl (fun p c => exec se env c.run p) p

/-- The entries a mock object holds, through the pointer to it. -/
def Sinks.GetLogs (s : Sinks) (ref : Nat) : Option (List LogEntry) :=
  (s.mocks[ref]?).map MockLogger.GetLogs

/-! ## mock.go: derivation of a mock handler -/

/-- The method `MockLogger.WithAttrs`: the object `newLogger` it builds.  The
field `logs` of the new object is the slice header of `l.logs`, copied, so the
new object starts with the entries of `l`, and an `append` made through one of
the two objects sets the header of that object only.  A slice is represented by
its elements; what two headers over one backing array with spare capacity show
of each other's later appends is not represented. -/
def MockLogger.WithAttrs (l : MockLogger) (attrs : List Attr) : MockLogger :=
  let newLogger : MockLogger :=
    { logs := l.logs,
      attrs := List.replicate (l.attrs.length + attrs.length) Attr.zero,
      groups := List.replicate l.groups.length "" }
  let a := copy newLogger.attrs l.attrs
  let a := copyAt a l.attrs.length attrs
  let g := copy newLogger.groups l.groups
  { newLogger with attrs := a, groups := g }

/-- The method `MockLogger.WithGroup`: the object `newLogger` it builds (see
`MockLogger.WithAttrs` for the field `logs`). -/
def MockLogger.WithGroup (l : MockLogger) (name : String) : MockLogger :=
  let newLogger : MockLogger :=
    { logs := l.logs,
      attrs := List.replicate l.attrs.length Attr.zero,
      groups := List.replicate (l.groups.length + 1) "" }
  let a := copy newLogger.attrs l.attrs
  let g := copy newLogger.groups l.groups
  let g := g.set l.groups.length name
  { newLogger with attrs := a, groups := g }

/-- The call `l.WithAttrs(attrs)` on the pointer `l` to a mock object: the
pointer returned and the sinks with the new object (`none` when `l` refers to no
object). -/
def Sinks.mockWithAttrs (s : Sinks) (l : Nat) (attrs : List Attr) : Option (Nat × Sinks) :=
  match s.mocks[l]? with
  | none => none
  | some lv => some (s.mocks.length, { s with mocks := s.mocks ++ [lv.WithAttrs attrs] })

/-- The call `l.WithGroup(name)` on the pointer `l` to a mock object: the
pointer returned and the sinks with the new object (`none` when `l` refers to no
object). -/
def Sinks.mockWithGroup (s : Sinks) (l : Nat) (name : String) : Option (Nat × Sinks) :=
  match s.mocks[l]? with
  | none => none
  | some lv => some (s.mocks.length, { s with mocks := s.mocks ++ [lv.WithGroup name] })

/-! ## Examples of the parts of log/slog -/

/-- The attributes `Record.Add` makes of a list of arguments none of which is a
`slog.Attr`: a string followed by a value gives the attribute with that key, and
a value without a key gets the key "!BADKEY". -/
def pairArgs : List Any → List Attr
  | [] => []
  | [x] => [{ Key := "!BADKEY", Value := x }]
  | Any.str k :: v :: rest => { Key := k, Value := v } :: pairArgs rest
  | x :: v :: rest => { Key := "!BADKEY", Value := x } :: pairArgs (v :: rest)

/-- An environment of `log/slog` for examples: a fixed clock and no program
counter, the pairing of arguments above, and handlers of `log/slog` that write
one line with the message of the record. -/
def sampleSlogEnv : SlogEnv :=
  { stamp := fun _ => ({ unixNano := 0, zoneOffset := 0 }, 0),
    argsToAttrs := pairArgs,
    textHandle := fun _ r => "msg=" ++ r.Message ++ "\n",
    jsonHandle := fun _ r => "\x7b\"msg\":\"" ++ r.Message ++ "\"\x7d\n",
    defaultHandle := fun r => r.Message ++ "\n" }

/-- The arguments of the call `log.Info("Logger initialized", ...)` in `Init`. -/
def initArgs (cfg : Config) : List Any :=
  [Any.str "level", Any.str cfg.Level,
   Any.str "format", Any.str cfg.Format,
   Any.str "enableCaller", Any.bool cfg.EnableCaller,
   Any.str "enableStacktrace", Any.bool cfg.EnableStacktrace,
   Any.str "environment", Any.str cfg.Environment,
   Any.str "enableColors", Any.bool cfg.EnableColors]

/-- The record `log/slog` builds for the call of `Init` when it is the n-th
levelled call. -/
def initRecord (se : SlogEnv) (cfg : Config) (n : Nat) : Record :=
  { Time := (se.stamp n).1, Message := "Logger initialized", Level := LevelInfo,
    PC := (se.stamp n).2, attrs := se.argsToAttrs (initArgs cfg) }

/-! ## encoding/json: the serialisation of the map -/

/-- The value a Go map holds for a key, if it holds one. -/
def GoMap.get? : GoMap → String → Option Any
  | [], _ => none
  | (k0, v0) :: m, k => if k0 = k then some v0 else GoMap.get? m k

/-- The keys of a Go map. -/
def GoMap.keys (m : GoMap) : List String :=
  m.map Prod.fst

/-- Lexicographic comparison of two sequences of numbers. -/
def lexLE : List Nat → List Nat → Bool
  | [], _ => true
  | _ :: _, [] => false
  | a :: as, b :: bs => if a < b then true else if b < a then false else lexLE as bs

/-- The order `encoding/json` sorts the keys of a map in: the order `<=` of Go
strings, which compares byte by byte; on UTF-8 text that is the comparison of
the sequences of code points. -/
def keyLE (a b : String) : Bool :=
  lexLE (a.data.map Char.toNat) (b.data.map Char.toNat)

/-- The order of two map entries: the order of their keys. -/
def entryLE (a b : String × Any) : Prop :=
  keyLE a.1 b.1 = true

instance entryLE.decidable : DecidableRel entryLE :=
  fun a b => inferInstanceAs (Decidable (keyLE a.1 b.1 = true))

/-- The entries of a map in the order `encoding/json` writes them: sorted by
key. -/
def sortEntries (m : GoMap) : GoMap :=
  m.insertionSort entryLE

/-- The parts of `encoding/json` this development does not define: the JSON text
of a Go string (quotes and escapes), and the JSON text, or the error, of a value
that is not nil, a string, an integer or a boolean (the value is known by its
display text, and its JSON text may depend on the indentation). -/
structure JSONCodec where
  quote : String → String
  other : String → String → String → Except String String

/-- The JSON text of a value, or the error of its encoding. -/
def JSONCodec.value (c : JSONCodec) (v : Any) (pfx indent : String) : Except String String :=
  match v with
  | .nil => Except.ok "null"
  | .str s => Except.ok (c.quote s)
  | .int i => Except.ok (toString i)
  | .bool b => Except.ok (if b then "true" else "false")
  | .other d => c.other d pfx indent

/-- The texts `"key": value` of the entries, in the order given, or the first
error met. -/
def encodeEntries (c : JSONCodec) (pfx indent : String) :
    GoMap → Except String (List String)
  | [] => Except.ok []
  | (k, v) :: m =>
    match c.value v pfx indent with
    | .error e => Except.error e
    | .ok t =>
      match encodeEntries c pfx indent m with
      | .error e => Except.error e
      | .ok ts => Except.ok ((c.quote k ++ ": " ++ t) :: ts)

/-- The texts joined by a separator. -/
def joinLines (sep : String) : List String → String
  | [] => ""
  | [t] => t
  | t :: t2 :: ts => t ++ sep ++ joinLines sep (t2 :: ts)

/-- The JSON object that holds the given entry texts, one per line. -/
def objectText (pfx indent : String) : List String → String
  | [] => "\x7b\x7d"
  | t :: ts =>
    "\x7b\n" ++ pfx ++ indent ++ joinLines (",\n" ++ pfx ++ indent) (t :: ts) ++ "\n" ++ pfx
      ++ "\x7d"

/-- The function `json.MarshalIndent(m, prefix, indent)` on a `map[string]any`:
the entries are written sorted by key, one per line. -/
def goMarshalIndent (c : JSONCodec) (m : GoMap) (pfx indent : String) : Except String String :=
  match encodeEntries c pfx indent (sortEntries m) with
  | .error e => Except.error e
  | .ok ts => Except.ok (objectText pfx indent ts)

/-- A codec for examples: a string is put between quotes as it is, which is its
JSON text when it has no character that JSON escapes; a value of another type is
not supported. -/
def sampleCodec : JSONCodec :=
  { quote := fun s => "\"" ++ s ++ "\"",
    other := fun d _ _ => Except.error ("json: unsupported type: " ++ d) }

/-- An environment for examples: a fixed clock text, no call-site information,
and `json.MarshalIndent` with the codec for examples. -/
def sampleEnv : Env :=
  { timeFormat := fun _ _ => "2024-01-01T12:00:00Z",
    callersFrame := fun _ => { File := "", Line := 0 },
    marshalIndent := goMarshalIndent sampleCodec }

/-- The map of `handleJSON` once the standard fields and the source have been
assigned, before the attributes are. -/
def standardFields (env : Env) (h : ColoredHandler) (r : Record) : GoMap :=
  let m : GoMap := []
  let m := m.set "time" (Any.str (env.timeFormat r.Time RFC3339))
  let m := m.set "level" (Any.str (levelString r.Level))
  let m := m.set "msg" (Any.str r.Message)
  if h.opts.AddSource && r.PC != 0 then
    let f := env.callersFrame r.PC
    if f.File != "" then
      m.set "source" (Any.str (f.File ++ ":" ++ toString f.Line))
    else m
  else m

/-- The assignments `m[attr.Key] = attr.Value` for the attributes of a sequence,
in order. -/
def setAttrs (m : GoMap) (attrs : List Attr) : GoMap :=
  attrs.foldl (fun m attr => m.set attr.Key attr.Value) m

/-- The value of the last attribute with the key `k` in a sequence, if there is
one. -/
def lastValue (k : String) : List Attr → Option Any
  | [] => none
  | a :: as =>
    match lastValue k as with
    | some v => some v
    | none => if a.Key = k then some a.Value else none

/-- The order of the keys that the specification states for the colored-JSON
mode: time, level, msg, source when present, then the keys of the bound
attributes, then the keys of the record attributes. -/
def statedKeyOrder (env : Env) (h : ColoredHandler) (r : Record) : List String :=
  ["time", "level", "msg"]
    ++ (if h.opts.AddSource && r.PC != 0 && (env.callersFrame r.PC).File != "" then ["source"]
        else [])
    ++ h.attrs.map (fun a => a.Key) ++ r.attrs.map (fun a => a.Key)

/-- One text occurs inside another. -/
def occursIn (sub text : String) : Prop :=
  ∃ a b, text = a ++ (sub ++ b)

/-! ## Lemmas on the builtins -/

theorem extractLoop_eq (n : Nat) : ∀ (args : List Any) (i : Nat) (attrs : List Any),
    args.length - i = n → extractLoop args i attrs = attrs ++ args.drop i := by
  induction n with
  | zero =>
    intro args i attrs hn
    rw [extractLoop]
    have hle : args.length ≤ i := by omega
    have hnot : ¬ i < args.length := by omega
    simp [hnot, List.drop_of_length_le hle]
  | succ n ih =>
    intro args i attrs hn
    rw [extractLoop]
    have hlt : i < args.length := by omega
    simp only [hlt, dite_true]
    rw [ih args (i + 1) _ (by omega), List.drop_eq_getElem_cons hlt]
    simp

theorem extractLoop_drop (args : List Any) (i : Nat) (attrs : List Any) :
    extractLoop args i attrs = attrs ++ args.drop i :=
  extractLoop_eq (args.length - i) args i attrs rfl

theorem copy_replicate {α : Type} (z : α) (src : List α) (m : Nat) :
    copy (List.replicate (src.length + m) z) src = src ++ List.replicate m z := by
  unfold copy
  rw [List.length_replicate, List.drop_replicate, List.take_of_length_le (by omega)]
  congr 2
  omega

theorem copyAt_tail {α : Type} (z : α) (pre src : List α) :
    copyAt (pre ++ List.replicate src.length z) pre.length src = pre ++ src := by
  unfold copyAt copy
  rw [List.take_left, List.drop_left, List.length_replicate, List.drop_replicate,
    List.take_of_length_le (Nat.le_refl _)]
  simp

/-! ## C1: the threshold check of the colored handler -/

/-- C1: for every colored handler and every level, `Enabled` is true when no
threshold is configured and otherwise true exactly when the level is at least
the threshold; for levels `L1 < L2`, a handler built with threshold `L2` is not
enabled for `L1` and is enabled for `L2` and every level above it. -/
theorem ColoredHandler.Enabled_threshold (h : ColoredHandler) (level : Level)
    (w : Writer) (opts : HandlerOptions) (useJSON : Bool) (L1 L2 : Level) (hlt : L1 < L2) :
    (h.opts.Level = none → h.Enabled level = true) ∧
    (∀ t, h.opts.Level = some t → (h.Enabled level = true ↔ level ≥ t)) ∧
    (NewColoredHandler w (some { opts with Level := some L2 }) useJSON).Enabled L1 = false ∧
    (∀ L, L2 ≤ L →
      (NewColoredHandler w (some { opts with Level := some L2 }) useJSON).Enabled L = true) := by
  refine ⟨?_, ?_, ?_, ?_⟩
  · intro hnone
    simp [ColoredHandler.Enabled, hnone]
  · intro t hsome
    simp [ColoredHandler.Enabled, hsome]
  · simp [ColoredHandler.Enabled, NewColoredHandler]
    exact hlt
  · intro L hL
    simp [ColoredHandler.Enabled, NewColoredHandler]
    exact hL

theorem ColoredHandler.Enabled_threshold_witness :
    LevelDebug < LevelInfo ∧
    (NewColoredHandler Writer.stdout none false).Enabled LevelDebug = true ∧
    (NewColoredHandler Writer.stdout (some { Level := some LevelInfo }) false).Enabled
      LevelDebug = false ∧
    (NewColoredHandler Writer.stdout (some { Level := some LevelInfo }) false).Enabled
      LevelError = true := by
  have hlt : LevelDebug < LevelInfo := by decide
  have key := ColoredHandler.Enabled_threshold (NewColoredHandler Writer.stdout none false)
    LevelDebug Writer.stdout {} false LevelDebug LevelInfo hlt
  exact ⟨hlt, key.1 rfl, key.2.2.1, key.2.2.2 LevelError (by decide)⟩

/-! ## C2, C3: extraction of the message and the attribute list -/

/-- C2: `extractMsgAndAttrs` returns the nil attribute list for empty `args`;
for non-empty `args` it returns a non-nil list equal to `args[1:]`, element for
element in the same order, of length `len(args)-1`, which is the empty list when
`args` has exactly one element. -/
theorem extractMsgAndAttrs_attrs (args : List Any) :
    (args = [] → (extractMsgAndAttrs args).2 = none) ∧
    (args ≠ [] → ∃ attrs, (extractMsgAndAttrs args).2 = some attrs ∧
      attrs = args.drop 1 ∧
      attrs.length = args.length - 1 ∧
      (∀ i, attrs[i]? = args[i + 1]?) ∧
      (args.length = 1 → attrs = [])) := by
  constructor
  · intro hnil
    subst hnil
    rfl
  · intro hne
    cases args with
    | nil => exact absurd rfl hne
    | cons a0 rest =>
      refine ⟨rest, ?_, ?_, ?_, ?_, ?_⟩
      · simp [extractMsgAndAttrs, extractLoop_drop]
      · simp
      · simp
      · intro i
        simp
      · intro hlen
        simpa using hlen

theorem extractMsgAndAttrs_attrs_witness :
    (extractMsgAndAttrs []).2 = none ∧
    (extractMsgAndAttrs [Any.str "m"]).2 = some [] ∧
    (extractMsgAndAttrs [Any.int 42, Any.str "k", Any.str "v"]).2
      = some [Any.str "k", Any.str "v"] := by
  refine ⟨(extractMsgAndAttrs_attrs []).1 rfl, ?_, ?_⟩
  · obtain ⟨attrs, h1, h2, -⟩ := (extractMsgAndAttrs_attrs [Any.str "m"]).2 (by decide)
    rw [h1, h2]
    rfl
  · obtain ⟨attrs, h1, h2, -⟩ :=
      (extractMsgAndAttrs_attrs [Any.int 42, Any.str "k", Any.str "v"]).2 (by decide)
    rw [h1, h2]
    rfl

/-- C3: `extractMsgAndAttrs` returns the empty message for empty `args`; for
non-empty `args` the message is `args[0]` itself when that is a string, and
otherwise the text `fmt.Sprint` gives for `args[0]`; the integer 42 gives
"42". -/
theorem extractMsgAndAttrs_msg (a : Any) (s : String) (rest : List Any) :
    (extractMsgAndAttrs []).1 = "" ∧
    (extractMsgAndAttrs (Any.str s :: rest)).1 = s ∧
    ((∀ t, a ≠ Any.str t) → (extractMsgAndAttrs (a :: rest)).1 = Sprint a) ∧
    (extractMsgAndAttrs (Any.int 42 :: rest)).1 = "42" := by
  refine ⟨rfl, rfl, ?_, rfl⟩
  intro hns
  cases a with
  | str t => exact absurd rfl (hns t)
  | nil => rfl
  | int i => rfl
  | bool b => rfl
  | other d => rfl

theorem extractMsgAndAttrs_msg_witness :
    (extractMsgAndAttrs [Any.str "m", Any.str "k", Any.str "v"]).1 = "m" ∧
    (extractMsgAndAttrs [Any.bool true, Any.str "k"]).1 = "true" ∧
    (extractMsgAndAttrs [Any.int 42, Any.str "k", Any.str "v"]).1 = "42" := by
  have key := extractMsgAndAttrs_msg (Any.bool true) "m" [Any.str "k"]
  exact ⟨(extractMsgAndAttrs_msg Any.nil "m" [Any.str "k", Any.str "v"]).2.1,
    key.2.2.1 (by intro t; exact Any.noConfusion),
    (extractMsgAndAttrs_msg Any.nil "m" [Any.str "k", Any.str "v"]).2.2.2⟩

/-! ## C4: the levelled methods of the legacy adapter -/

theorem extractMsgAndAttrs_cons (a : Any) (rest : List Any) :
    extractMsgAndAttrs (a :: rest) = (messageOf a, some rest) := by
  cases a <;> simp [extractMsgAndAttrs, assertString, extractLoop_drop, messageOf]

/-- C4: each of `Debug`, `Info`, `Warn` and `Error` of the legacy adapter
forwards nothing to the underlying logger when called with zero arguments, and
with a non-empty argument list forwards exactly one call, at the level of the
method, whose message and attributes are those `extractMsgAndAttrs` returns:
the message made of `args[0]` and, as attributes, the arguments `args[1:]`
themselves, in order. -/
theorem LegacyAdapter.forwarding (l : LegacyAdapter) (a : Any) (rest : List Any) (w : World) :
    (l.Debug [] w = w ∧ l.Info [] w = w ∧ l.Warn [] w = w ∧ l.Error [] w = w) ∧
    extractMsgAndAttrs (a :: rest) = (messageOf a, some rest) ∧
    (∀ s, messageOf (Any.str s) = s) ∧ messageOf (Any.int 42) = "42" ∧
    l.Debug (a :: rest) w = { w with calls := w.calls ++
      [{ logger := l.logger, level := LevelDebug, msg := messageOf a, args := rest }] } ∧
    l.Info (a :: rest) w = { w with calls := w.calls ++
      [{ logger := l.logger, level := LevelInfo, msg := messageOf a, args := rest }] } ∧
    l.Warn (a :: rest) w = { w with calls := w.calls ++
      [{ logger := l.logger, level := LevelWarn, msg := messageOf a, args := rest }] } ∧
    l.Error (a :: rest) w = { w with calls := w.calls ++
      [{ logger := l.logger, level := LevelError, msg := messageOf a, args := rest }] } ∧
    ((l.Debug (a :: rest) w).calls.length = w.calls.length + 1 ∧
      (l.Info (a :: rest) w).calls.length = w.calls.length + 1 ∧
      (l.Warn (a :: rest) w).calls.length = w.calls.length + 1 ∧
      (l.Error (a :: rest) w).calls.length = w.calls.length + 1) := by
  have hx := extractMsgAndAttrs_cons a rest
  have hD : l.Debug (a :: rest) w = { w with calls := w.calls ++
      [{ logger := l.logger, level := LevelDebug, msg := messageOf a, args := rest }] } := by
    unfold LegacyAdapter.Debug
    rw [hx]
    rfl
  have hI : l.Info (a :: rest) w = { w with calls := w.calls ++
      [{ logger := l.logger, level := LevelInfo, msg := messageOf a, args := rest }] } := by
    unfold LegacyAdapter.Info
    rw [hx]
    rfl
  have hW : l.Warn (a :: rest) w = { w with calls := w.calls ++
      [{ logger := l.logger, level := LevelWarn, msg := messageOf a, args := rest }] } := by
    unfold LegacyAdapter.Warn
    rw [hx]
    rfl
  have hE : l.Error (a :: rest) w = { w with calls := w.calls ++
      [{ logger := l.logger, level := LevelError, msg := messageOf a, args := rest }] } := by
    unfold LegacyAdapter.Error
    rw [hx]
    rfl
  refine ⟨⟨rfl, rfl, rfl, rfl⟩, hx, fun _ => rfl, rfl, hD, hI, hW, hE, ?_, ?_, ?_, ?_⟩
  · rw [hD]
    simp
  · rw [hI]
    simp
  · rw [hW]
    simp
  · rw [hE]
    simp

theorem LegacyAdapter.forwarding_witness :
    LegacyAdapter.Info { logger := { handler := Handler.mock 0 } }
        [Any.str "m", Any.str "k", Any.str "v"] {}
      = { calls := [{ logger := { handler := Handler.mock 0 }, level := LevelInfo,
                      msg := "m", args := [Any.str "k", Any.str "v"] }] } ∧
    LegacyAdapter.Error { logger := { handler := Handler.mock 0 } }
        [Any.int 42, Any.str "k", Any.str "v"] {}
      = { calls := [{ logger := { handler := Handler.mock 0 }, level := LevelError,
                      msg := "42", args := [Any.str "k", Any.str "v"] }] } ∧
    LegacyAdapter.Warn { logger := { handler := Handler.mock 0 } } [] {} = {} := by
  have h1 := LegacyAdapter.forwarding { logger := { handler := Handler.mock 0 } }
    (Any.str "m") [Any.str "k", Any.str "v"] {}
  have h2 := LegacyAdapter.forwarding { logger := { handler := Handler.mock 0 } }
    (Any.int 42) [Any.str "k", Any.str "v"] {}
  exact ⟨h1.2.2.2.2.2.1, h2.2.2.2.2.2.2.2.1, h1.1.2.2.1⟩

/-! ## C5: derivation with attributes -/

/-- C5: `WithAttrs(newAttrs)` returns a handler whose options, writer, group
path and output mode are those of the receiver and whose bound attributes are
the bound attributes of the receiver followed by `newAttrs`, in order. -/
theorem ColoredHandler.WithAttrs_fields (h : ColoredHandler) (newAttrs : List Attr) :
    (h.WithAttrs newAttrs).opts = h.opts ∧
    (h.WithAttrs newAttrs).w = h.w ∧
    (h.WithAttrs newAttrs).groups = h.groups ∧
    (h.WithAttrs newAttrs).useJSON = h.useJSON ∧
    (h.WithAttrs newAttrs).attrs = h.attrs ++ newAttrs := by
  refine ⟨rfl, rfl, ?_, rfl, ?_⟩
  · simp [ColoredHandler.WithAttrs]
  · show copyAt (copy (List.replicate (h.attrs.length + newAttrs.length) Attr.zero) h.attrs)
      h.attrs.length newAttrs = h.attrs ++ newAttrs
    rw [copy_replicate, copyAt_tail]

/-! ## C6: derivation leaves the parent as it was -/

theorem Heap.deref_lt (s : Heap) (p : Nat) (hv : ColoredHandler)
    (hp : s.deref p = some hv) : p < s.handlers.length := by
  unfold Heap.deref at hp
  by_contra hge
  rw [List.getElem?_eq_none (by omega)] at hp
  exact Option.noConfusion hp

theorem Heap.deref_alloc_old (s : Heap) (h : ColoredHandler) (p : Nat)
    (hp : p < s.handlers.length) : (s.alloc h).2.deref p = s.deref p := by
  simp [Heap.alloc, Heap.deref, List.getElem?_append_left hp]

theorem Heap.deref_alloc_new (s : Heap) (h : ColoredHandler) :
    (s.alloc h).2.deref (s.alloc h).1 = some h := by
  simp [Heap.alloc, Heap.deref]

/-- C6: calling `WithAttrs` or `WithGroup` on a colored handler returns a new
handler object and leaves the receiver, hence its bound attributes and its group
path, as it was, so that `Handle` on the receiver returns the same result and
makes the same writes after the derivation as before it. -/
theorem Heap.derivation_keeps_parent (env : Env) (s : Heap) (p : Nat) (hv : ColoredHandler)
    (hp : s.deref p = some hv) (attrs : List Attr) (name : String) (r : Record) :
    ∃ q1 s1 q2 s2,
      s.WithAttrs p attrs = some (q1, s1) ∧ s.WithGroup p name = some (q2, s2) ∧
      q1 ≠ p ∧ q2 ≠ p ∧
      s1.deref p = some hv ∧ s2.deref p = some hv ∧
      (s1.deref p).map (fun h => (h.attrs, h.groups)) = some (hv.attrs, hv.groups) ∧
      (s2.deref p).map (fun h => (h.attrs, h.groups)) = some (hv.attrs, hv.groups) ∧
      s1.Handle env p r = s.Handle env p r ∧ s2.Handle env p r = s.Handle env p r ∧
      s1.Handle env p r = some (hv.Handle env r) ∧
      s1.deref q1 = some (hv.WithAttrs attrs) ∧ s2.deref q2 = some (hv.WithGroup name) := by
  have hlt := Heap.deref_lt s p hv hp
  have h1 := Heap.deref_alloc_old s (hv.WithAttrs attrs) p hlt
  have h2 := Heap.deref_alloc_old s (hv.WithGroup name) p hlt
  refine ⟨(s.alloc (hv.WithAttrs attrs)).1, (s.alloc (hv.WithAttrs attrs)).2,
    (s.alloc (hv.WithGroup name)).1, (s.alloc (hv.WithGroup name)).2, ?_, ?_, ?_, ?_, ?_, ?_,
    ?_, ?_, ?_, ?_, ?_, ?_, ?_⟩
  · simp [Heap.WithAttrs, hp]
  · simp [Heap.WithGroup, hp]
  · show s.handlers.length ≠ p
    omega
  · show s.handlers.length ≠ p
    omega
  · rw [h1, hp]
  · rw [h2, hp]
  · rw [h1, hp]
    rfl
  · rw [h2, hp]
    rfl
  · simp only [Heap.Handle, h1]
  · simp only [Heap.Handle, h2]
  · simp only [Heap.Handle, h1, hp]
  · exact Heap.deref_alloc_new s _
  · exact Heap.deref_alloc_new s _

theorem Heap.derivation_keeps_parent_witness :
    ∃ q1 s1,
      ({ handlers := [NewColoredHandler Writer.stdout none false] } : Heap).WithAttrs 0
        [{ Key := "service", Value := Any.str "test" }] = some (q1, s1) ∧
      q1 ≠ 0 ∧
      s1.deref 0 = some (NewColoredHandler Writer.stdout none false) ∧
      s1.deref q1 = some ((NewColoredHandler Writer.stdout none false).WithAttrs
        [{ Key := "service", Value := Any.str "test" }]) := by
  obtain ⟨q1, s1, -, -, h1, -, h3, -, h5, -, -, -, -, -, -, h11, -⟩ :=
    Heap.derivation_keeps_parent
      { timeFormat := fun _ _ => "", callersFrame := fun _ => { File := "", Line := 0 },
        marshalIndent := fun _ _ _ => Except.ok "" }
      { handlers := [NewColoredHandler Writer.stdout none false] } 0
      (NewColoredHandler Writer.stdout none false) rfl
      [{ Key := "service", Value := Any.str "test" }] "g"
      { Time := { unixNano := 0, zoneOffset := 0 }, Message := "m", Level := LevelInfo,
        PC := 0, attrs := [] }
  exact ⟨q1, s1, h1, h3, h5, h11⟩

/-! ## C8, C7: level names and the failure of the constructor -/

theorem parseLogLevel_ok_iff (level : String) :
    (parseLogLevel level).2 = none ↔ level ∈ levelNames := by
  unfold parseLogLevel levelNames
  by_cases h1 : level = "debug"
  · simp [h1]
  by_cases h2 : level = "info"
  · simp [h2]
  by_cases h3 : level = "warn"
  · simp [h3]
  by_cases h4 : level = "error"
  · simp [h4]
  simp [h1, h2, h3, h4]

theorem parseLogLevel_unknown (level : String) (h : level ∉ levelNames) :
    parseLogLevel level = (LevelInfo, some ("unknown log level: " ++ level)) := by
  unfold levelNames at h
  simp only [List.mem_cons, List.mem_singleton, List.not_mem_nil, or_false, not_or] at h
  obtain ⟨h1, h2, h3, h4⟩ := h
  simp [parseLogLevel, h1, h2, h3, h4]

/-- C8: `parseLogLevel` maps "debug", "info", "warn" and "error" to the debug,
info, warn and error levels without error, and fails with an error for every
other string; the match is exact and case-sensitive. -/
theorem parseLogLevel_table (level : String) :
    parseLogLevel "debug" = (LevelDebug, none) ∧
    parseLogLevel "info" = (LevelInfo, none) ∧
    parseLogLevel "warn" = (LevelWarn, none) ∧
    parseLogLevel "error" = (LevelError, none) ∧
    ((parseLogLevel level).2 ≠ none ↔ level ∉ levelNames) ∧
    (level ∉ levelNames →
      (parseLogLevel level).2 = some ("unknown log level: " ++ level)) ∧
    (parseLogLevel "INFO").2 ≠ none ∧ (parseLogLevel "Debug").2 ≠ none ∧
    (parseLogLevel "warn ").2 ≠ none ∧ (parseLogLevel "").2 ≠ none := by
  refine ⟨by decide, by decide, by decide, by decide, ?_, ?_, by decide, by decide,
    by decide, by decide⟩
  · rw [not_iff_not]
    exact parseLogLevel_ok_iff level
  · intro h
    rw [parseLogLevel_unknown level h]

theorem parseLogLevel_table_witness :
    (parseLogLevel "invalid").2 = some "unknown log level: invalid" := by
  exact (parseLogLevel_table "invalid").2.2.2.2.2.1 (by decide)

/-- C7: `New(cfg)` returns an error and no logger exactly when `cfg.Level` is not
one of "debug", "info", "warn", "error"; the message of the error is that of the
unknown-level error and ends with the offending level string; the info level
that `parseLogLevel` returns beside its error is not used to build a logger. -/
theorem New_error_iff (cfg : Config) :
    ((New cfg).2 ≠ none ↔ cfg.Level ∉ levelNames) ∧
    ((New cfg).1 = none ↔ cfg.Level ∉ levelNames) ∧
    (cfg.Level ∉ levelNames →
      New cfg = (none, some ("invalid log level: unknown log level: " ++ cfg.Level)) ∧
      (parseLogLevel cfg.Level).1 = LevelInfo ∧
      ∃ msg, (New cfg).2 = some msg ∧ cfg.Level.data <:+ msg.data) ∧
    (cfg.Level ∈ levelNames → (New cfg).1 ≠ none ∧ (New cfg).2 = none) := by
  have hbad : cfg.Level ∉ levelNames →
      New cfg = (none, some ("invalid log level: unknown log level: " ++ cfg.Level)) := by
    intro h
    simp only [New, parseLogLevel_unknown cfg.Level h]
    rw [← String.append_assoc]
    rfl
  have hgood : cfg.Level ∈ levelNames → (New cfg).1 ≠ none ∧ (New cfg).2 = none := by
    intro h
    have hnone := (parseLogLevel_ok_iff cfg.Level).2 h
    unfold New
    rcases hpl : parseLogLevel cfg.Level with ⟨lvl, err⟩
    rw [hpl] at hnone
    simp only at hnone
    subst hnone
    simp
  refine ⟨?_, ?_, ?_, hgood⟩
  · constructor
    · intro herr hmem
      exact herr (hgood hmem).2
    · intro h
      rw [hbad h]
      simp
  · constructor
    · intro hnil hmem
      exact (hgood hmem).1 hnil
    · intro h
      rw [hbad h]
  · intro h
    refine ⟨hbad h, ?_, _, by rw [hbad h], ?_⟩
    · rw [parseLogLevel_unknown cfg.Level h]
    · rw [String.data_append]
      exact List.suffix_append _ _

theorem New_error_iff_witness :
    New { Level := "invalid", Format := "json", EnableCaller := true,
          EnableStacktrace := true, EnableColors := false, Environment := "" }
      = (none, some "invalid log level: unknown log level: invalid") := by
  exact ((New_error_iff
    { Level := "invalid", Format := "json", EnableCaller := true,
      EnableStacktrace := true, EnableColors := false, Environment := "" }).2.2.1
      (by decide)).1

/-! ## C9: selection of the handler -/

theorem isLocalEnvironment_eq_inLocalClass (env : String) :
    isLocalEnvironment env = inLocalClass env := by
  have h1 : ToLower "development" = "development" := by decide
  have h2 : ToLower "local" = "local" := by decide
  have h3 : ToLower "dev" = "dev" := by decide
  simp [isLocalEnvironment, inLocalClass, localNames, equalsIgnoreCase, h1, h2, h3,
    Bool.or_assoc]

theorem New_of_valid (cfg : Config) (hvalid : cfg.Level ∈ levelNames) :
    New cfg = (some (SlogLogger.mk
      (if cfg.Format == "console" && effectiveColors cfg then
        Handler.colored (NewColoredHandler Writer.stdout (some (optsOf cfg)) false)
      else if cfg.Format == "json" && effectiveColors cfg then
        Handler.colored (NewColoredHandler Writer.stdout (some (optsOf cfg)) true)
      else if cfg.Format == "console" then
        Handler.text Writer.stdout (optsOf cfg)
      else
        Handler.json Writer.stdout (optsOf cfg))), none) := by
  have hnone := (parseLogLevel_ok_iff cfg.Level).2 hvalid
  unfold New optsOf effectiveColors
  rw [← isLocalEnvironment_eq_inLocalClass]
  rcases hpl : parseLogLevel cfg.Level with ⟨lvl, err⟩
  rw [hpl] at hnone
  simp only at hnone
  subst hnone
  rfl

/-- C9: for a configuration with a valid level, with colors taken as
`EnableColors` or an environment equal to "development", "local" or "dev"
ignoring letter case, `New` selects the plain colored handler for console format
with colors, the colored-JSON handler for json format with colors, the uncolored
text handler for console format without colors, and the uncolored JSON handler
for json format without colors. -/
theorem New_handler_selection (cfg : Config) (hvalid : cfg.Level ∈ levelNames) :
    (cfg.Format = "console" → effectiveColors cfg = true →
      New cfg = (some (SlogLogger.mk (Handler.colored
        (NewColoredHandler Writer.stdout (some (optsOf cfg)) false))), none)) ∧
    (cfg.Format = "json" → effectiveColors cfg = true →
      New cfg = (some (SlogLogger.mk (Handler.colored
        (NewColoredHandler Writer.stdout (some (optsOf cfg)) true))), none)) ∧
    (cfg.Format = "console" → effectiveColors cfg = false →
      New cfg = (some (SlogLogger.mk (Handler.text Writer.stdout (optsOf cfg))), none)) ∧
    (cfg.Format = "json" → effectiveColors cfg = false →
      New cfg = (some (SlogLogger.mk (Handler.json Writer.stdout (optsOf cfg))), none)) ∧
    effectiveColors cfg = (cfg.EnableColors || isLocalEnvironment cfg.Environment) := by
  refine ⟨?_, ?_, ?_, ?_, ?_⟩
  · intro hf hc
    rw [New_of_valid cfg hvalid, hf, hc]
    rfl
  · intro hf hc
    rw [New_of_valid cfg hvalid, hf, hc]
    rfl
  · intro hf hc
    rw [New_of_valid cfg hvalid, hf, hc]
    rfl
  · intro hf hc
    rw [New_of_valid cfg hvalid, hf, hc]
    rfl
  · rw [isLocalEnvironment_eq_inLocalClass]
    rfl

theorem New_handler_selection_witness :
    New { Level := "warn", Format := "json", EnableCaller := false,
          EnableStacktrace := true, EnableColors := false, Environment := "Local" }
      = (some (SlogLogger.mk (Handler.colored (NewColoredHandler Writer.stdout
          (some { Level := some LevelWarn, AddSource := false }) true))), none) := by
  exact (New_handler_selection
    { Level := "warn", Format := "json", EnableCaller := false,
      EnableStacktrace := true, EnableColors := false, Environment := "Local" }
    (by decide)).2.1 rfl (by decide)

/-! ## C10: the configuration derived from an environment name -/

/-- What `InitFromEnv` derives for every name: level "info", caller and
stacktrace capture on, and console format with colors on exactly when the name
is, letter for letter, one of "development", "local", "dev". -/
theorem InitFromEnv_cfg_exact (env : String) :
    (InitFromEnv.cfg env).Level = "info" ∧
    (InitFromEnv.cfg env).EnableCaller = true ∧
    (InitFromEnv.cfg env).EnableStacktrace = true ∧
    (InitFromEnv.cfg env).Environment = env ∧
    (env ∈ localNames →
      (InitFromEnv.cfg env).Format = "console" ∧ (InitFromEnv.cfg env).EnableColors = true) ∧
    (env ∉ localNames →
      (InitFromEnv.cfg env).Format = "json" ∧ (InitFromEnv.cfg env).EnableColors = false) := by
  refine ⟨rfl, rfl, rfl, rfl, ?_, ?_⟩
  · intro h
    have hc : (env == "development" || env == "local" || env == "dev") = true := by
      simpa [localNames, or_assoc, and_assoc] using h
    simp [InitFromEnv.cfg, hc, FormatConsole]
  · intro h
    have hc : (env == "development" || env == "local" || env == "dev") = false := by
      simpa [localNames, or_assoc, and_assoc] using h
    simp [InitFromEnv.cfg, hc, FormatJSON]

/-- C10, at the name "DEV": the name belongs to the local-environment class, yet
`InitFromEnv` derives JSON format with colors off for it, and the logger it
installs is the colored-JSON one, not the plain colored one. -/
theorem InitFromEnv_DEV_diverges :
    inLocalClass "DEV" = true ∧ isLocalEnvironment "DEV" = true ∧
    (InitFromEnv.cfg "DEV").Format = "json" ∧
    (InitFromEnv.cfg "DEV").EnableColors = false ∧
    (InitFromEnv "DEV" {}).1 = none ∧
    (InitFromEnv "DEV" {}).2.defaultLogger = some (SlogLogger.mk (Handler.colored
      (NewColoredHandler Writer.stdout
        (some { Level := some LevelInfo, AddSource := true }) true))) ∧
    (InitFromEnv "dev" {}).2.defaultLogger = some (SlogLogger.mk (Handler.colored
      (NewColoredHandler Writer.stdout
        (some { Level := some LevelInfo, AddSource := true }) false))) := by
  decide

/-! ## Lemmas on the colored handler -/

theorem getLevelColor_label_length (level : Level) : (getLevelColor level).2.length = 5 := by
  unfold getLevelColor
  split_ifs <;> rfl

theorem getLevelColor_info : getLevelColor LevelInfo = (green, "INFO ") := by
  decide

theorem handleJSON_ok (env : Env) (h : ColoredHandler) (r : Record) (b : String)
    (hok : env.marshalIndent (jsonFields env h r) "" "  " = Except.ok b) :
    h.handleJSON env r = (none, [(getLevelColor r.Level).1 ++ b ++ reset ++ "\n"]) := by
  unfold ColoredHandler.handleJSON
  simp only [hok]

theorem handleJSON_error (env : Env) (h : ColoredHandler) (r : Record) (err : String)
    (herr : env.marshalIndent (jsonFields env h r) "" "  " = Except.error err) :
    h.handleJSON env r = (some err, []) := by
  unfold ColoredHandler.handleJSON
  simp only [herr]

/-! ## C11: the level table -/

/-- C11: `getLevelColor` follows the fixed table for every level value, the
values between the named levels included: red and "ERROR" from the error level
up, otherwise yellow and "WARN " from the warn level up, otherwise green and
"INFO " from the info level up, otherwise blue and "DEBUG"; the label always
has exactly 5 characters. -/
theorem getLevelColor_table (level : Level) :
    (level ≥ LevelError → getLevelColor level = (red, "ERROR")) ∧
    (level < LevelError → level ≥ LevelWarn → getLevelColor level = (yellow, "WARN ")) ∧
    (level < LevelWarn → level ≥ LevelInfo → getLevelColor level = (green, "INFO ")) ∧
    (level < LevelInfo → getLevelColor level = (blue, "DEBUG")) ∧
    (getLevelColor level).2.length = 5 := by
  have key : ∀ l : Int,
      (l ≥ 8 → getLevelColor l = (red, "ERROR")) ∧
      (l < 8 → l ≥ 4 → getLevelColor l = (yellow, "WARN ")) ∧
      (l < 4 → l ≥ 0 → getLevelColor l = (green, "INFO ")) ∧
      (l < 0 → getLevelColor l = (blue, "DEBUG")) := by
    intro l
    refine ⟨?_, ?_, ?_, ?_⟩
    · intro h
      simp [getLevelColor, LevelError, h]
    · intro h1 h2
      have h3 : ¬ l ≥ 8 := by omega
      simp [getLevelColor, LevelError, LevelWarn, h2, h3]
    · intro h1 h2
      have h3 : ¬ l ≥ 8 := by omega
      have h4 : ¬ l ≥ 4 := by omega
      simp [getLevelColor, LevelError, LevelWarn, LevelInfo, h2, h3, h4]
    · intro h1
      have h3 : ¬ l ≥ 8 := by omega
      have h4 : ¬ l ≥ 4 := by omega
      have h5 : ¬ l ≥ 0 := by omega
      simp [getLevelColor, LevelError, LevelWarn, LevelInfo, h3, h4, h5]
  exact ⟨(key level).1, (key level).2.1, (key level).2.2.1, (key level).2.2.2,
    getLevelColor_label_length level⟩

theorem getLevelColor_table_witness :
    getLevelColor 9 = (red, "ERROR") ∧ getLevelColor 5 = (yellow, "WARN ") ∧
    getLevelColor 2 = (green, "INFO ") ∧ getLevelColor (-1) = (blue, "DEBUG") ∧
    getLevelColor LevelDebug = (blue, "DEBUG") := by
  exact ⟨(getLevelColor_table 9).1 (by decide),
    (getLevelColor_table 5).2.1 (by decide) (by decide),
    (getLevelColor_table 2).2.2.1 (by decide) (by decide),
    (getLevelColor_table (-1)).2.2.2.1 (by decide),
    (getLevelColor_table LevelDebug).2.2.2.1 (by decide)⟩

/-! ## C12, C13: the plain colored mode -/

theorem Handle_plain (env : Env) (h : ColoredHandler) (r : Record)
    (hplain : h.useJSON = false) :
    h.Handle env r = (none, [messageLine env r]
      ++ (if h.opts.AddSource && r.PC != 0 then
            if (env.callersFrame r.PC).File != "" then
              ["    " ++ darkGray ++ "Source: " ++ (env.callersFrame r.PC).File ++ ":"
                ++ toString (env.callersFrame r.PC).Line ++ reset ++ "\n"]
            else []
          else [])
      ++ (if h.attrs.length > 0 || r.attrs.length > 0 then
            [attributesHeader] ++ h.attrs.map attrLine ++ r.attrs.map attrLine
          else [])) := by
  unfold ColoredHandler.Handle
  rw [hplain]
  rfl

/-- C12: in plain colored mode the output of `Handle` starts, for every record,
with the line made of the formatted time (layout 15:04:05.000), one space, the
color code of the level followed by its 5-character label and the reset code,
one space, the message of the record as it is, and a newline. -/
theorem Handle_plain_first_line (env : Env) (h : ColoredHandler) (r : Record)
    (hplain : h.useJSON = false) :
    ∃ rest,
      (h.Handle env r).2 = (env.timeFormat r.Time "15:04:05.000" ++ " "
        ++ ((getLevelColor r.Level).1 ++ (getLevelColor r.Level).2 ++ reset) ++ " "
        ++ r.Message ++ "\n") :: rest ∧
      written (h.Handle env r).2 = (env.timeFormat r.Time "15:04:05.000" ++ " "
        ++ ((getLevelColor r.Level).1 ++ (getLevelColor r.Level).2 ++ reset) ++ " "
        ++ r.Message ++ "\n") ++ written rest ∧
      (getLevelColor r.Level).2.length = 5 := by
  rw [Handle_plain env h r hplain]
  exact ⟨_, rfl, rfl, getLevelColor_label_length r.Level⟩

theorem Handle_plain_first_line_witness :
    ∃ rest, written ((NewColoredHandler Writer.stdout none false).Handle
      { timeFormat := fun _ _ => "12:00:00.000",
        callersFrame := fun _ => { File := "", Line := 0 },
        marshalIndent := fun _ _ _ => Except.ok "" }
      { Time := { unixNano := 0, zoneOffset := 0 }, Message := "warn message",
        Level := LevelWarn, PC := 0, attrs := [] }).2
      = "12:00:00.000 \x1b[33mWARN \x1b[0m warn message\n" ++ rest := by
  obtain ⟨rest, -, h2, -⟩ := Handle_plain_first_line
    { timeFormat := fun _ _ => "12:00:00.000",
      callersFrame := fun _ => { File := "", Line := 0 },
      marshalIndent := fun _ _ _ => Except.ok "" }
    (NewColoredHandler Writer.stdout none false)
    { Time := { unixNano := 0, zoneOffset := 0 }, Message := "warn message",
      Level := LevelWarn, PC := 0, attrs := [] } rfl
  exact ⟨written rest, h2⟩

/-- C13: in plain colored mode the attributes block is written exactly when the
handler has a bound attribute or the record has an attribute; it is the header
line followed by one line per attribute, all bound attributes first, in their
order, then the attributes of the record, in their order, none merged. -/
theorem Handle_plain_attributes (env : Env) (h : ColoredHandler) (r : Record)
    (hplain : h.useJSON = false) :
    ∃ block,
      (h.Handle env r).2
        = (({ h with attrs := [] } : ColoredHandler).Handle env { r with attrs := [] }).2
          ++ block ∧
      (block ≠ [] ↔ (h.attrs.length ≥ 1 ∨ r.attrs.length ≥ 1)) ∧
      ((h.attrs.length ≥ 1 ∨ r.attrs.length ≥ 1) →
        block = [attributesHeader] ++ h.attrs.map attrLine ++ r.attrs.map attrLine ∧
        block.length = 1 + (h.attrs.length + r.attrs.length)) := by
  rw [Handle_plain env h r hplain, Handle_plain env { h with attrs := [] } { r with attrs := [] }
    hplain]
  by_cases hany : h.attrs.length ≥ 1 ∨ r.attrs.length ≥ 1
  · refine ⟨[attributesHeader] ++ h.attrs.map attrLine ++ r.attrs.map attrLine, ?_, ?_, ?_⟩
    · have hc : (decide (h.attrs.length > 0) || decide (r.attrs.length > 0)) = true := by
        rcases hany with h1 | h1
        · simp [Nat.pos_of_ne_zero (by omega : h.attrs.length ≠ 0)]
        · simp [Nat.pos_of_ne_zero (by omega : r.attrs.length ≠ 0)]
      simp only [hc, if_true]
      simp [messageLine]
    · simp [hany]
    · intro _
      refine ⟨rfl, ?_⟩
      simp
      omega
  · refine ⟨[], ?_, ?_, ?_⟩
    · have h1 : h.attrs.length = 0 := by omega
      have h2 : r.attrs.length = 0 := by omega
      simp [h1, h2, messageLine]
    · simp [hany]
    · intro hc
      exact absurd hc hany

theorem Handle_plain_attributes_witness :
    ∃ block, ((NewColoredHandler Writer.stdout none false).WithAttrs
        [{ Key := "service", Value := Any.str "test" }, { Key := "version", Value := Any.int 1 }]
      |>.Handle
        { timeFormat := fun _ _ => "12:00:00.000",
          callersFrame := fun _ => { File := "", Line := 0 },
          marshalIndent := fun _ _ _ => Except.ok "" }
        { Time := { unixNano := 0, zoneOffset := 0 }, Message := "Test message",
          Level := LevelInfo, PC := 0,
          attrs := [{ Key := "key", Value := Any.str "value" }] }).2
      = ["12:00:00.000 \x1b[32mINFO \x1b[0m Test message\n"] ++ block ∧
      block = ["    \x1b[90mAttributes:\x1b[0m\n",
        "      \x1b[36mservice\x1b[0m: test\n",
        "      \x1b[36mversion\x1b[0m: 1\n",
        "      \x1b[36mkey\x1b[0m: value\n"] := by
  obtain ⟨block, h1, -, h3⟩ := Handle_plain_attributes
    { timeFormat := fun _ _ => "12:00:00.000",
      callersFrame := fun _ => { File := "", Line := 0 },
      marshalIndent := fun _ _ _ => Except.ok "" }
    ((NewColoredHandler Writer.stdout none false).WithAttrs
      [{ Key := "service", Value := Any.str "test" }, { Key := "version", Value := Any.int 1 }])
    { Time := { unixNano := 0, zoneOffset := 0 }, Message := "Test message",
      Level := LevelInfo, PC := 0,
      attrs := [{ Key := "key", Value := Any.str "value" }] } rfl
  refine ⟨block, ?_, ?_⟩
  · rw [h1]
    rfl
  · rw [(h3 (Or.inr (by decide))).1]
    decide

/-! ## C17, C19: the text and the failure of the colored-JSON mode -/

theorem Handle_json (env : Env) (h : ColoredHandler) (r : Record)
    (hjson : h.useJSON = true) : h.Handle env r = h.handleJSON env r := by
  unfold ColoredHandler.Handle
  rw [hjson]
  rfl

/-- C17: in colored-JSON mode, when `json.MarshalIndent(m, "", "  ")` succeeds
with the block `b`, `Handle` writes exactly the color code of the level of the
record (per the level table), then `b`, the reset code and a newline; for an
info-level record the output starts with the green code. -/
theorem Handle_json_text (env : Env) (h : ColoredHandler) (r : Record) (b : String)
    (hjson : h.useJSON = true)
    (hok : env.marshalIndent (jsonFields env h r) "" "  " = Except.ok b) :
    h.Handle env r = (none, [(getLevelColor r.Level).1 ++ b ++ reset ++ "\n"]) ∧
    written (h.Handle env r).2 = (getLevelColor r.Level).1 ++ b ++ reset ++ "\n" ∧
    (r.Level = LevelInfo →
      written (h.Handle env r).2 = green ++ (b ++ reset ++ "\n")) := by
  have hH : h.Handle env r = (none, [(getLevelColor r.Level).1 ++ b ++ reset ++ "\n"]) := by
    rw [Handle_json env h r hjson]
    exact handleJSON_ok env h r b hok
  refine ⟨hH, ?_, ?_⟩
  · rw [hH]
    simp [written]
  · intro hinfo
    rw [hH, hinfo]
    simp [written, getLevelColor_info, String.append_assoc]

theorem Handle_json_text_witness :
    written ((NewColoredHandler Writer.stdout none true).Handle
      { timeFormat := fun _ _ => "2024-01-01T12:00:00Z",
        callersFrame := fun _ => { File := "", Line := 0 },
        marshalIndent := fun _ _ _ => Except.ok "BLOCK" }
      { Time := { unixNano := 0, zoneOffset := 0 }, Message := "Test message",
        Level := LevelInfo, PC := 0, attrs := [] }).2
      = green ++ ("BLOCK" ++ reset ++ "\n") := by
  exact (Handle_json_text
    { timeFormat := fun _ _ => "2024-01-01T12:00:00Z",
      callersFrame := fun _ => { File := "", Line := 0 },
      marshalIndent := fun _ _ _ => Except.ok "BLOCK" }
    (NewColoredHandler Writer.stdout none true)
    { Time := { unixNano := 0, zoneOffset := 0 }, Message := "Test message",
      Level := LevelInfo, PC := 0, attrs := [] } "BLOCK" rfl rfl).2.2 rfl

/-- C19: in colored-JSON mode, if serialising the map of the record fails,
`Handle` returns that error and makes no write at all; in plain colored mode
`Handle` never returns an error. -/
theorem Handle_failure (env : Env) (h : ColoredHandler) (r : Record) :
    (h.useJSON = true → ∀ err,
      env.marshalIndent (jsonFields env h r) "" "  " = Except.error err →
      h.Handle env r = (some err, []) ∧ written (h.Handle env r).2 = "") ∧
    (h.useJSON = false → (h.Handle env r).1 = none) := by
  constructor
  · intro hjson err herr
    have hH : h.Handle env r = (some err, []) := by
      rw [Handle_json env h r hjson]
      exact handleJSON_error env h r err herr
    rw [hH]
    exact ⟨rfl, rfl⟩
  · intro hplain
    rw [Handle_plain env h r hplain]

theorem Handle_failure_witness :
    (NewColoredHandler Writer.stdout none true).Handle
      { timeFormat := fun _ _ => "2024-01-01T12:00:00Z",
        callersFrame := fun _ => { File := "", Line := 0 },
        marshalIndent := fun _ _ _ => Except.error "json: unsupported type" }
      { Time := { unixNano := 0, zoneOffset := 0 }, Message := "Test message",
        Level := LevelInfo, PC := 0, attrs := [{ Key := "ch", Value := Any.other "0xc000" }] }
      = (some "json: unsupported type", []) := by
  exact ((Handle_failure
    { timeFormat := fun _ _ => "2024-01-01T12:00:00Z",
      callersFrame := fun _ => { File := "", Line := 0 },
      marshalIndent := fun _ _ _ => Except.error "json: unsupported type" }
    (NewColoredHandler Writer.stdout none true)
    { Time := { unixNano := 0, zoneOffset := 0 }, Message := "Test message",
      Level := LevelInfo, PC := 0, attrs := [{ Key := "ch", Value := Any.other "0xc000" }] }).1
    rfl "json: unsupported type" rfl).1

/-! ## C18: the number of write calls -/

/-- C18, at a plain colored handler with one bound attribute: `Handle` does not
fail and makes three write calls (message line, header, attribute line), not
one. -/
theorem Handle_plain_three_writes :
    (((NewColoredHandler Writer.stdout none false).WithAttrs
        [{ Key := "service", Value := Any.str "test" }]).Handle
      { timeFormat := fun _ _ => "12:00:00.000",
        callersFrame := fun _ => { File := "", Line := 0 },
        marshalIndent := fun _ _ _ => Except.ok "" }
      { Time := { unixNano := 0, zoneOffset := 0 }, Message := "m",
        Level := LevelInfo, PC := 0, attrs := [] })
      = (none, ["12:00:00.000 \x1b[32mINFO \x1b[0m m\n",
          "    \x1b[90mAttributes:\x1b[0m\n",
          "      \x1b[36mservice\x1b[0m: test\n"]) ∧
    (((NewColoredHandler Writer.stdout none false).WithAttrs
        [{ Key := "service", Value := Any.str "test" }]).Handle
      { timeFormat := fun _ _ => "12:00:00.000",
        callersFrame := fun _ => { File := "", Line := 0 },
        marshalIndent := fun _ _ _ => Except.ok "" }
      { Time := { unixNano := 0, zoneOffset := 0 }, Message := "m",
        Level := LevelInfo, PC := 0, attrs := [] }).2.length ≠ 1 := by
  constructor
  · decide
  · decide

/-- C18, amended: a call of `Handle` that does not fail makes exactly one write
call in colored-JSON mode; in plain colored mode it never fails and makes one
write call per line: one for the message line, one more when the source line is
written, and, when there is any attribute, one for the header and one per bound
and per record attribute; so one write call exactly when neither a source line
nor an attribute is written. -/
theorem Handle_write_count (env : Env) (h : ColoredHandler) (r : Record) :
    (h.useJSON = true → (h.Handle env r).1 = none → (h.Handle env r).2.length = 1) ∧
    (h.useJSON = false →
      (h.Handle env r).1 = none ∧
      (h.Handle env r).2.length
        = 1 + (if h.opts.AddSource && r.PC != 0 && (env.callersFrame r.PC).File != ""
                then 1 else 0)
            + (if h.attrs.length > 0 || r.attrs.length > 0
                then 1 + h.attrs.length + r.attrs.length else 0) ∧
      ((h.Handle env r).2.length = 1 ↔
        ((h.opts.AddSource && r.PC != 0 && (env.callersFrame r.PC).File != "") = false ∧
          h.attrs = [] ∧ r.attrs = []))) := by
  constructor
  · intro hjson hnone
    rw [Handle_json env h r hjson] at hnone ⊢
    cases hm : env.marshalIndent (jsonFields env h r) "" "  " with
    | error e =>
      rw [handleJSON_error env h r e hm] at hnone
      exact absurd hnone (by simp)
    | ok b =>
      rw [handleJSON_ok env h r b hm]
      rfl
  · intro hplain
    have hlen : (h.Handle env r).2.length
        = 1 + (if h.opts.AddSource && r.PC != 0 && (env.callersFrame r.PC).File != ""
                then 1 else 0)
            + (if h.attrs.length > 0 || r.attrs.length > 0
                then 1 + h.attrs.length + r.attrs.length else 0) := by
      rw [Handle_plain env h r hplain]
      by_cases hs : (h.opts.AddSource && r.PC != 0) = true
      · by_cases hf : ((env.callersFrame r.PC).File != "") = true
        · by_cases ha : (decide (h.attrs.length > 0) || decide (r.attrs.length > 0)) = true
          · simp [hs, hf, ha]
            omega
          · simp [hs, hf, ha]
        · by_cases ha : (decide (h.attrs.length > 0) || decide (r.attrs.length > 0)) = true
          · simp [hs, hf, ha]
            omega
          · simp [hs, hf, ha]
      · by_cases ha : (decide (h.attrs.length > 0) || decide (r.attrs.length > 0)) = true
        · simp [hs, ha]
          omega
        · simp [hs, ha]
    refine ⟨?_, hlen, ?_⟩
    · rw [Handle_plain env h r hplain]
    · rw [hlen]
      cases hsrc : (h.opts.AddSource && r.PC != 0 && (env.callersFrame r.PC).File != "")
      · by_cases ha : (decide (h.attrs.length > 0) || decide (r.attrs.length > 0)) = true
        · simp only [ha, if_true]
          constructor
          · intro hl
            simp at hl
          · intro ⟨_, h1, h2⟩
            simp [h1, h2] at ha
        · simp only [ha]
          simp at ha
          simp [ha.1, ha.2]
      · simp
        split_ifs <;> omega

theorem Handle_write_count_witness :
    ((NewColoredHandler Writer.stdout none false).Handle
      { timeFormat := fun _ _ => "12:00:00.000",
        callersFrame := fun _ => { File := "", Line := 0 },
        marshalIndent := fun _ _ _ => Except.ok "" }
      { Time := { unixNano := 0, zoneOffset := 0 }, Message := "m",
        Level := LevelInfo, PC := 0,
        attrs := [{ Key := "key", Value := Any.str "value" }] }).2.length = 3 := by
  exact ((Handle_write_count
    { timeFormat := fun _ _ => "12:00:00.000",
      callersFrame := fun _ => { File := "", Line := 0 },
      marshalIndent := fun _ _ _ => Except.ok "" }
    (NewColoredHandler Writer.stdout none false)
    { Time := { unixNano := 0, zoneOffset := 0 }, Message := "m",
      Level := LevelInfo, PC := 0,
      attrs := [{ Key := "key", Value := Any.str "value" }] }).2 rfl).2.1

/-! ## Lemmas on the map and its serialisation -/

theorem lexLE_total : ∀ a b : List Nat, lexLE a b = true ∨ lexLE b a = true
  | [], _ => Or.inl (by simp [lexLE])
  | _ :: _, [] => Or.inr (by simp [lexLE])
  | a :: as, b :: bs => by
    rcases Nat.lt_trichotomy a b with h | h | h
    · left
      simp [lexLE, h]
    · subst h
      simpa [lexLE] using lexLE_total as bs
    · right
      simp [lexLE, h]

theorem lexLE_trans : ∀ a b c : List Nat,
    lexLE a b = true → lexLE b c = true → lexLE a c = true
  | [], _, _ => fun _ _ => by simp [lexLE]
  | _ :: _, [], _ => fun h _ => by simp [lexLE] at h
  | _ :: _, _ :: _, [] => fun _ h => by simp [lexLE] at h
  | a :: as, b :: bs, c :: cs => by
    intro hab hbc
    simp only [lexLE] at hab hbc ⊢
    by_cases h1 : a < b
    · by_cases h2 : b < c
      · have : a < c := by omega
        simp [this]
      · by_cases h3 : c < b
        · simp [h2, h3] at hbc
        · have hbc' : b = c := by omega
          subst hbc'
          simp [h1]
    · by_cases h1' : b < a
      · simp [h1, h1'] at hab
      · have hab' : a = b := by omega
        subst hab'
        simp only [h1, if_false] at hab
        by_cases h2 : a < c
        · simp [h2]
        · by_cases h3 : c < a
          · simp [h2, h3] at hbc
          · simp only [h2, h3, if_false] at hbc ⊢
            exact lexLE_trans as bs cs hab hbc

theorem entryLE_total (a b : String × Any) : entryLE a b ∨ entryLE b a :=
  lexLE_total _ _

theorem entryLE_trans (a b c : String × Any) : entryLE a b → entryLE b c → entryLE a c :=
  lexLE_trans _ _ _

theorem sortEntries_sorted (m : GoMap) : List.Sorted entryLE (sortEntries m) :=
  @List.sorted_insertionSort _ entryLE _ ⟨entryLE_total⟩ ⟨entryLE_trans⟩ m

theorem sortEntries_perm (m : GoMap) : (sortEntries m).Perm m :=
  List.perm_insertionSort entryLE m

theorem GoMap.get?_set_self : ∀ (m : GoMap) (k : String) (v : Any),
    (m.set k v).get? k = some v
  | [], k, v => by simp [GoMap.set, GoMap.get?]
  | (k0, v0) :: m, k, v => by
    by_cases h : k0 = k
    · simp [GoMap.set, GoMap.get?, h]
    · simp [GoMap.set, GoMap.get?, h, GoMap.get?_set_self m k v]

theorem GoMap.get?_set_other : ∀ (m : GoMap) (k k2 : String) (v : Any), k ≠ k2 →
    (m.set k v).get? k2 = m.get? k2
  | [], k, k2, v, hne => by simp [GoMap.set, GoMap.get?, hne]
  | (k0, v0) :: m, k, k2, v, hne => by
    by_cases h : k0 = k
    · subst h
      simp [GoMap.set, GoMap.get?, hne]
    · by_cases h2 : k0 = k2
      · subst h2
        simp [GoMap.set, GoMap.get?, h]
      · simp [GoMap.set, GoMap.get?, h, h2, GoMap.get?_set_other m k k2 v hne]

theorem GoMap.mem_keys_set : ∀ (m : GoMap) (k k2 : String) (v : Any),
    k2 ∈ (m.set k v).keys ↔ k2 = k ∨ k2 ∈ m.keys
  | [], k, k2, v => by simp [GoMap.set, GoMap.keys]
  | (k0, v0) :: m, k, k2, v => by
    have ih := GoMap.mem_keys_set m k k2 v
    simp only [GoMap.keys] at ih ⊢
    by_cases h : k0 = k
    · subst h
      simp [GoMap.set]
    · simp only [GoMap.set, h, if_false, List.map_cons, List.mem_cons, ih]
      tauto

theorem GoMap.nodup_keys_set : ∀ (m : GoMap) (k : String) (v : Any),
    m.keys.Nodup → (m.set k v).keys.Nodup
  | [], k, v, _ => by simp [GoMap.set, GoMap.keys]
  | (k0, v0) :: m, k, v, hnd => by
    have hnd' : k0 ∉ GoMap.keys m ∧ (GoMap.keys m).Nodup := by
      simpa [GoMap.keys] using hnd
    by_cases h : k0 = k
    · subst h
      simpa [GoMap.set, GoMap.keys] using hnd
    · have ih := GoMap.nodup_keys_set m k v hnd'.2
      have hmem := GoMap.mem_keys_set m k k0 v
      have hnot : k0 ∉ GoMap.keys (GoMap.set m k v) := by
        rw [hmem]
        intro hc
        rcases hc with hc | hc
        · exact h hc
        · exact hnd'.1 hc
      simp only [GoMap.set, h, if_false]
      show (k0 :: GoMap.keys (GoMap.set m k v)).Nodup
      exact List.nodup_cons.mpr ⟨hnot, ih⟩

theorem jsonFields_eq (env : Env) (h : ColoredHandler) (r : Record) :
    jsonFields env h r = setAttrs (setAttrs (standardFields env h r) h.attrs) r.attrs := by
  rfl

theorem setAttrs_get? (k : String) : ∀ (attrs : List Attr) (m : GoMap),
    (setAttrs m attrs).get? k =
      match lastValue k attrs with
      | some v => some v
      | none => m.get? k
  | [], m => by simp [setAttrs, lastValue]
  | a :: as, m => by
    have ih := setAttrs_get? k as (m.set a.Key a.Value)
    have hstep : setAttrs m (a :: as) = setAttrs (m.set a.Key a.Value) as := rfl
    rw [hstep, ih]
    cases hl : lastValue k as with
    | some v => simp [lastValue, hl]
    | none =>
      by_cases hk : a.Key = k
      · subst hk
        simp [lastValue, hl, GoMap.get?_set_self]
      · simp [lastValue, hl, hk, GoMap.get?_set_other m a.Key k a.Value hk]

theorem setAttrs_nodup : ∀ (attrs : List Attr) (m : GoMap),
    m.keys.Nodup → (setAttrs m attrs).keys.Nodup
  | [], _, hnd => hnd
  | a :: as, m, hnd =>
    setAttrs_nodup as (m.set a.Key a.Value) (GoMap.nodup_keys_set m a.Key a.Value hnd)

theorem lastValue_none_iff (k : String) : ∀ attrs : List Attr,
    lastValue k attrs = none ↔ ∀ a ∈ attrs, a.Key ≠ k
  | [] => by simp [lastValue]
  | a :: as => by
    have ih := lastValue_none_iff k as
    cases hl : lastValue k as with
    | some v =>
      rw [hl] at ih
      simp only [lastValue, hl]
      constructor
      · intro hc
        exact absurd hc (by simp)
      · intro hall
        have : ∀ a ∈ as, a.Key ≠ k := fun b hb => hall b (List.mem_cons_of_mem a hb)
        exact absurd (ih.2 this) (by simp)
    | none =>
      rw [hl] at ih
      have ih' := ih.1 rfl
      simp only [lastValue, hl]
      by_cases hk : a.Key = k
      · simp [hk]
      · simp only [hk, if_false, true_iff]
        intro b hb
        rcases List.mem_cons.mp hb with hb | hb
        · rw [hb]
          exact hk
        · exact ih' b hb

theorem lastValue_some_mem (k : String) : ∀ (attrs : List Attr) (v : Any),
    lastValue k attrs = some v → ∃ a ∈ attrs, a.Key = k ∧ a.Value = v
  | [], _, hl => by simp [lastValue] at hl
  | a :: as, v, hl => by
    cases hl2 : lastValue k as with
    | some v2 =>
      simp only [lastValue, hl2] at hl
      obtain ⟨b, hb, hk, hv⟩ := lastValue_some_mem k as v2 hl2
      refine ⟨b, List.mem_cons_of_mem a hb, hk, ?_⟩
      rw [hv]
      exact Option.some.inj hl
    | none =>
      simp only [lastValue, hl2] at hl
      by_cases hk : a.Key = k
      · simp only [hk, if_true] at hl
        exact ⟨a, List.mem_cons_self a as, hk, Option.some.inj hl⟩
      · simp [hk] at hl

theorem standardFields_nodup (env : Env) (h : ColoredHandler) (r : Record) :
    (standardFields env h r).keys.Nodup := by
  have hk : ∀ a b c : Any,
      GoMap.keys (((GoMap.set [] "time" a).set "level" b).set "msg" c)
        = ["time", "level", "msg"] := by
    intro a b c
    simp [GoMap.set, GoMap.keys]
  have hnd : ∀ a b c : Any,
      (GoMap.keys (((GoMap.set [] "time" a).set "level" b).set "msg" c)).Nodup := by
    intro a b c
    rw [hk]
    decide
  unfold standardFields
  simp only []
  split_ifs
  · exact GoMap.nodup_keys_set _ _ _ (hnd _ _ _)
  · exact hnd _ _ _
  · exact hnd _ _ _

theorem standardFields_level_msg (env : Env) (h : ColoredHandler) (r : Record) :
    (standardFields env h r).get? "level" = some (Any.str (levelString r.Level)) ∧
    (standardFields env h r).get? "msg" = some (Any.str r.Message) := by
  unfold standardFields
  simp only []
  split_ifs
  · rw [GoMap.get?_set_other _ "source" "level" _ (by decide),
      GoMap.get?_set_other _ "source" "msg" _ (by decide)]
    exact ⟨rfl, rfl⟩
  · exact ⟨rfl, rfl⟩
  · exact ⟨rfl, rfl⟩

theorem jsonFields_nodup (env : Env) (h : ColoredHandler) (r : Record) :
    (jsonFields env h r).keys.Nodup := by
  rw [jsonFields_eq]
  exact setAttrs_nodup _ _ (setAttrs_nodup _ _ (standardFields_nodup env h r))

theorem jsonFields_get? (env : Env) (h : ColoredHandler) (r : Record) (k : String) :
    (jsonFields env h r).get? k =
      match lastValue k r.attrs with
      | some v => some v
      | none =>
        match lastValue k h.attrs with
        | some v => some v
        | none => (standardFields env h r).get? k := by
  rw [jsonFields_eq, setAttrs_get?, setAttrs_get?]

theorem setAttrs_mem_keys (k : String) : ∀ (attrs : List Attr) (m : GoMap),
    k ∈ (setAttrs m attrs).keys ↔ k ∈ m.keys ∨ ∃ a ∈ attrs, a.Key = k
  | [], m => by simp [setAttrs]
  | a :: as, m => by
    have ih := setAttrs_mem_keys k as (m.set a.Key a.Value)
    have hstep : setAttrs m (a :: as) = setAttrs (m.set a.Key a.Value) as := rfl
    rw [hstep, ih, GoMap.mem_keys_set]
    constructor
    · rintro ((h1 | h1) | ⟨b, hb, hk⟩)
      · exact Or.inr ⟨a, List.mem_cons_self a as, h1.symm⟩
      · exact Or.inl h1
      · exact Or.inr ⟨b, List.mem_cons_of_mem a hb, hk⟩
    · rintro (h1 | ⟨b, hb, hk⟩)
      · exact Or.inl (Or.inr h1)
      · rcases List.mem_cons.mp hb with hb | hb
        · subst hb
          exact Or.inl (Or.inl hk.symm)
        · exact Or.inr ⟨b, hb, hk⟩

theorem standardFields_mem_keys (env : Env) (h : ColoredHandler) (r : Record) (k : String) :
    k ∈ (standardFields env h r).keys ↔
      k ∈ ["time", "level", "msg"]
        ++ (if h.opts.AddSource && r.PC != 0 && (env.callersFrame r.PC).File != ""
            then ["source"] else []) := by
  have hk : ∀ a b c : Any,
      GoMap.keys (((GoMap.set [] "time" a).set "level" b).set "msg" c)
        = ["time", "level", "msg"] := by
    intro a b c
    simp [GoMap.set, GoMap.keys]
  unfold standardFields
  simp only []
  by_cases h1 : (h.opts.AddSource && r.PC != 0) = true
  · by_cases h2 : ((env.callersFrame r.PC).File != "") = true
    · simp only [h1, h2, if_true, Bool.and_self, GoMap.mem_keys_set, hk]
      simp
      tauto
    · simp only [h1, h2, if_true, hk]
      simp [h2]
      rw [hk]
      simp
  · simp only [h1, hk]
    simp [h1]
    rw [hk]
    simp

theorem jsonFields_mem_keys (env : Env) (h : ColoredHandler) (r : Record) (k : String) :
    k ∈ (jsonFields env h r).keys ↔ k ∈ statedKeyOrder env h r := by
  rw [jsonFields_eq, setAttrs_mem_keys, setAttrs_mem_keys, standardFields_mem_keys]
  unfold statedKeyOrder
  simp only [List.mem_append, List.mem_map]

theorem sortEntries_keys_perm (m : GoMap) : (sortEntries m).keys.Perm m.keys :=
  (sortEntries_perm m).map Prod.fst

theorem sortEntries_keys_ascending (m : GoMap) (hnd : m.keys.Nodup) :
    List.Pairwise (fun a b => keyLE a b = true ∧ a ≠ b) (sortEntries m).keys := by
  have hs : List.Pairwise (fun a b => keyLE a b = true) (sortEntries m).keys := by
    have := sortEntries_sorted m
    unfold List.Sorted at this
    exact List.pairwise_map.mpr this
  have hn : (sortEntries m).keys.Nodup := (sortEntries_keys_perm m).nodup_iff.mpr hnd
  exact hs.and hn

theorem encodeEntries_forall₂ (c : JSONCodec) (pfx indent : String) :
    ∀ (m : GoMap) (ts : List String), encodeEntries c pfx indent m = Except.ok ts →
      List.Forall₂ (fun e t => ∃ v, c.value e.2 pfx indent = Except.ok v ∧
        t = c.quote e.1 ++ ": " ++ v) m ts
  | [], ts, hok => by
    simp only [encodeEntries] at hok
    cases hok
    exact List.Forall₂.nil
  | (k, v) :: m, ts, hok => by
    simp only [encodeEntries] at hok
    cases hv : c.value v pfx indent with
    | error e => simp [hv] at hok
    | ok t =>
      cases hrest : encodeEntries c pfx indent m with
      | error e => simp [hv, hrest] at hok
      | ok ts2 =>
        simp only [hv, hrest] at hok
        cases hok
        exact List.Forall₂.cons ⟨t, hv, rfl⟩ (encodeEntries_forall₂ c pfx indent m ts2 hrest)

theorem handleJSON_go (env : Env) (c : JSONCodec) (h : ColoredHandler) (r : Record)
    (henv : env.marshalIndent = goMarshalIndent c) :
    h.handleJSON env r =
      match encodeEntries c "" "  " (sortEntries (jsonFields env h r)) with
      | .error e => (some e, [])
      | .ok ts => (none, [(getLevelColor r.Level).1 ++ objectText "" "  " ts ++ reset ++ "\n"]) := by
  unfold ColoredHandler.handleJSON
  simp only [henv, goMarshalIndent]
  cases encodeEntries c "" "  " (sortEntries (jsonFields env h r)) with
  | error e => rfl
  | ok ts => rfl

theorem Handle_json_go_ok (env : Env) (c : JSONCodec) (h : ColoredHandler) (r : Record)
    (hjson : h.useJSON = true) (henv : env.marshalIndent = goMarshalIndent c)
    (hnone : (h.Handle env r).1 = none) :
    ∃ ts, encodeEntries c "" "  " (sortEntries (jsonFields env h r)) = Except.ok ts ∧
      h.Handle env r
        = (none, [(getLevelColor r.Level).1 ++ objectText "" "  " ts ++ reset ++ "\n"]) := by
  rw [Handle_json env h r hjson, handleJSON_go env c h r henv] at hnone ⊢
  cases hm : encodeEntries c "" "  " (sortEntries (jsonFields env h r)) with
  | error e =>
    rw [hm] at hnone
    exact absurd hnone (by simp)
  | ok ts => exact ⟨ts, rfl, rfl⟩

theorem sortEntries_standard (a b c : Any) :
    sortEntries [("time", a), ("level", b), ("msg", c)]
      = [("level", b), ("msg", c), ("time", a)] := by
  have h1 : entryLE ("level", b) ("msg", c) := by
    show keyLE "level" "msg" = true
    decide
  have h2 : ¬ entryLE ("time", a) ("level", b) := by
    show ¬ keyLE "time" "level" = true
    decide
  have h3 : ¬ entryLE ("time", a) ("msg", c) := by
    show ¬ keyLE "time" "msg" = true
    decide
  simp [sortEntries, List.insertionSort, List.orderedInsert, h1, h2, h3]

/-! ## C14: the order of the keys in colored-JSON mode -/

/-- C14, at an info record without attributes: the serialised object has its
keys in the order level, msg, time, not in the order time, level, msg. -/
theorem Handle_json_keys_not_in_stated_order :
    (NewColoredHandler Writer.stdout none true).Handle sampleEnv
      { Time := { unixNano := 0, zoneOffset := 0 }, Message := "m",
        Level := LevelInfo, PC := 0, attrs := [] }
      = (none, ["\x1b[32m\x7b\n  \"level\": \"INFO\",\n  \"msg\": \"m\",\n" ++
          "  \"time\": \"2024-01-01T12:00:00Z\"\n\x7d\x1b[0m\n"]) ∧
    (sortEntries (jsonFields sampleEnv (NewColoredHandler Writer.stdout none true)
      { Time := { unixNano := 0, zoneOffset := 0 }, Message := "m",
        Level := LevelInfo, PC := 0, attrs := [] })).keys = ["level", "msg", "time"] ∧
    statedKeyOrder sampleEnv (NewColoredHandler Writer.stdout none true)
      { Time := { unixNano := 0, zoneOffset := 0 }, Message := "m",
        Level := LevelInfo, PC := 0, attrs := [] } = ["time", "level", "msg"] ∧
    (sortEntries (jsonFields sampleEnv (NewColoredHandler Writer.stdout none true)
      { Time := { unixNano := 0, zoneOffset := 0 }, Message := "m",
        Level := LevelInfo, PC := 0, attrs := [] })).keys
      ≠ statedKeyOrder sampleEnv (NewColoredHandler Writer.stdout none true)
        { Time := { unixNano := 0, zoneOffset := 0 }, Message := "m",
          Level := LevelInfo, PC := 0, attrs := [] } := by
  refine ⟨by decide, by decide, by decide, by decide⟩

/-- C14, amended: in colored-JSON mode, with `json.MarshalIndent` writing a map
as `encoding/json` does, the serialised object holds the keys time, level, msg,
source (when present) and the keys of the bound and of the record attributes,
each once, in ascending order of the key strings, whatever the order in which
they were assigned; with no attribute and no source the order is level, msg,
time. -/
theorem Handle_json_key_order (env : Env) (c : JSONCodec) (h : ColoredHandler) (r : Record)
    (hjson : h.useJSON = true) (henv : env.marshalIndent = goMarshalIndent c) :
    (∀ k, k ∈ (sortEntries (jsonFields env h r)).keys ↔ k ∈ statedKeyOrder env h r) ∧
    (sortEntries (jsonFields env h r)).keys.Nodup ∧
    List.Pairwise (fun a b => keyLE a b = true ∧ a ≠ b) (sortEntries (jsonFields env h r)).keys ∧
    ((h.Handle env r).1 = none → ∃ ts,
      List.Forall₂ (fun e t => ∃ v, c.value e.2 "" "  " = Except.ok v ∧
        t = c.quote e.1 ++ ": " ++ v) (sortEntries (jsonFields env h r)) ts ∧
      (h.Handle env r).2
        = [(getLevelColor r.Level).1 ++ objectText "" "  " ts ++ reset ++ "\n"]) ∧
    (h.attrs = [] → r.attrs = [] →
      (h.opts.AddSource && r.PC != 0 && (env.callersFrame r.PC).File != "") = false →
      (sortEntries (jsonFields env h r)).keys = ["level", "msg", "time"]) := by
  refine ⟨?_, ?_, ?_, ?_, ?_⟩
  · intro k
    rw [(sortEntries_keys_perm _).mem_iff]
    exact jsonFields_mem_keys env h r k
  · exact (sortEntries_keys_perm _).nodup_iff.mpr (jsonFields_nodup env h r)
  · exact sortEntries_keys_ascending _ (jsonFields_nodup env h r)
  · intro hnone
    obtain ⟨ts, hts, hH⟩ := Handle_json_go_ok env c h r hjson henv hnone
    refine ⟨ts, encodeEntries_forall₂ c "" "  " _ ts hts, ?_⟩
    rw [hH]
  · intro ha hr hsrc
    have hstd : standardFields env h r
        = [("time", Any.str (env.timeFormat r.Time RFC3339)),
           ("level", Any.str (levelString r.Level)), ("msg", Any.str r.Message)] := by
      unfold standardFields
      simp only []
      by_cases h1 : (h.opts.AddSource && r.PC != 0) = true
      · have h2 : ((env.callersFrame r.PC).File != "") = false := by
          simpa [h1] using hsrc
        simp [h1, h2, GoMap.set]
      · simp [h1, GoMap.set]
    rw [jsonFields_eq, ha, hr, hstd]
    show (sortEntries _).keys = _
    simp only [setAttrs, List.foldl_nil]
    rw [sortEntries_standard]
    rfl

theorem Handle_json_key_order_witness :
    (sortEntries (jsonFields sampleEnv
      ((NewColoredHandler Writer.stdout none true).WithAttrs
        [{ Key := "service", Value := Any.str "test" }])
      { Time := { unixNano := 0, zoneOffset := 0 }, Message := "m",
        Level := LevelInfo, PC := 0,
        attrs := [{ Key := "key", Value := Any.str "value" }] })).keys.Nodup := by
  exact (Handle_json_key_order sampleEnv sampleCodec
    ((NewColoredHandler Writer.stdout none true).WithAttrs
      [{ Key := "service", Value := Any.str "test" }])
    { Time := { unixNano := 0, zoneOffset := 0 }, Message := "m",
      Level := LevelInfo, PC := 0,
      attrs := [{ Key := "key", Value := Any.str "value" }] } rfl rfl).2.1

/-! ## Lemmas on the text of the object -/

theorem occursIn_self (s : String) : occursIn s s :=
  ⟨"", "", by simp⟩

theorem occursIn_append_left (s t a : String) (h : occursIn s t) : occursIn s (a ++ t) := by
  obtain ⟨x, y, hxy⟩ := h
  exact ⟨a ++ x, y, by rw [hxy, String.append_assoc]⟩

theorem occursIn_append_right (s t b : String) (h : occursIn s t) : occursIn s (t ++ b) := by
  obtain ⟨x, y, hxy⟩ := h
  exact ⟨x, y ++ b, by rw [hxy]; simp [String.append_assoc]⟩

theorem occursIn_joinLines (sep t : String) : ∀ ts : List String,
    t ∈ ts → occursIn t (joinLines sep ts)
  | [], hmem => by simp at hmem
  | [t1], hmem => by
    have : t = t1 := by simpa using hmem
    subst this
    exact occursIn_self t
  | t1 :: t2 :: ts, hmem => by
    show occursIn t (t1 ++ sep ++ joinLines sep (t2 :: ts))
    rcases List.mem_cons.mp hmem with h1 | h1
    · subst h1
      exact occursIn_append_right _ _ _ (occursIn_append_right _ _ _ (occursIn_self t))
    · exact occursIn_append_left _ _ _ (occursIn_joinLines sep t (t2 :: ts) h1)

theorem occursIn_objectText (pfx indent t : String) (ts : List String) (hmem : t ∈ ts) :
    occursIn t (objectText pfx indent ts) := by
  cases ts with
  | nil => simp at hmem
  | cons t1 ts =>
    show occursIn t ("\x7b\n" ++ pfx ++ indent
      ++ joinLines (",\n" ++ pfx ++ indent) (t1 :: ts) ++ "\n" ++ pfx ++ "\x7d")
    exact occursIn_append_right _ _ _ (occursIn_append_right _ _ _
      (occursIn_append_right _ _ _ (occursIn_append_left _ _ _
        (occursIn_joinLines _ t (t1 :: ts) hmem))))

theorem GoMap.mem_of_get? : ∀ (m : GoMap) (k : String) (v : Any),
    m.get? k = some v → (k, v) ∈ m
  | [], _, _, hg => by simp [GoMap.get?] at hg
  | (k0, v0) :: m, k, v, hg => by
    by_cases h : k0 = k
    · subst h
      simp only [GoMap.get?, if_true] at hg
      rw [Option.some.inj hg]
      exact List.mem_cons_self _ _
    · simp only [GoMap.get?, h, if_false] at hg
      exact List.mem_cons_of_mem _ (GoMap.mem_of_get? m k v hg)

theorem encodeEntries_mem (c : JSONCodec) (pfx indent : String) :
    ∀ (m : GoMap) (ts : List String), encodeEntries c pfx indent m = Except.ok ts →
      ∀ (k : String) (v : Any), (k, v) ∈ m →
        ∃ t, c.value v pfx indent = Except.ok t ∧ (c.quote k ++ ": " ++ t) ∈ ts
  | [], _, _, _, _, hmem => by simp at hmem
  | (k0, v0) :: m, ts, hok, k, v, hmem => by
    simp only [encodeEntries] at hok
    cases hv : c.value v0 pfx indent with
    | error e => simp [hv] at hok
    | ok t0 =>
      cases hrest : encodeEntries c pfx indent m with
      | error e => simp [hv, hrest] at hok
      | ok ts2 =>
        simp only [hv, hrest] at hok
        cases hok
        rcases List.mem_cons.mp hmem with h1 | h1
        · have hk : k = k0 := congrArg Prod.fst h1
          have hv2 : v = v0 := congrArg Prod.snd h1
          subst hk
          subst hv2
          exact ⟨t0, hv, List.mem_cons_self _ _⟩
        · obtain ⟨t, ht, hin⟩ := encodeEntries_mem c pfx indent m ts2 hrest k v h1
          exact ⟨t, ht, List.mem_cons_of_mem _ hin⟩

theorem field_occurs (env : Env) (c : JSONCodec) (h : ColoredHandler) (r : Record)
    (hjson : h.useJSON = true) (henv : env.marshalIndent = goMarshalIndent c)
    (hnone : (h.Handle env r).1 = none) (k : String) (v : Any)
    (hget : (jsonFields env h r).get? k = some v) :
    ∃ t, c.value v "" "  " = Except.ok t ∧
      occursIn (c.quote k ++ ": " ++ t) (written (h.Handle env r).2) := by
  obtain ⟨ts, hts, hH⟩ := Handle_json_go_ok env c h r hjson henv hnone
  have hmem : (k, v) ∈ sortEntries (jsonFields env h r) :=
    (sortEntries_perm _).mem_iff.mpr (GoMap.mem_of_get? _ k v hget)
  obtain ⟨t, ht, hin⟩ := encodeEntries_mem c "" "  " _ ts hts k v hmem
  refine ⟨t, ht, ?_⟩
  rw [hH]
  show occursIn _ ((getLevelColor r.Level).1 ++ objectText "" "  " ts ++ reset ++ "\n" ++ "")
  exact occursIn_append_right _ _ _ (occursIn_append_right _ _ _
    (occursIn_append_right _ _ _ (occursIn_append_left _ _ _
      (occursIn_objectText "" "  " _ ts hin))))

theorem lastValue_last (k : String) (a : Attr) (post : List Attr) (hk : a.Key = k)
    (hpost : ∀ b ∈ post, b.Key ≠ k) : ∀ pre : List Attr,
    lastValue k (pre ++ a :: post) = some a.Value
  | [] => by
    have hn := (lastValue_none_iff k post).2 hpost
    simp [lastValue, hn, hk]
  | p :: pre => by
    have ih := lastValue_last k a post hk hpost pre
    simp [lastValue, ih]

theorem sorted_count_one (env : Env) (h : ColoredHandler) (r : Record) (k : String) (v : Any)
    (hget : (jsonFields env h r).get? k = some v) :
    (sortEntries (jsonFields env h r)).keys.count k = 1 := by
  have hnd : (sortEntries (jsonFields env h r)).keys.Nodup :=
    (sortEntries_keys_perm _).nodup_iff.mpr (jsonFields_nodup env h r)
  have hmem : k ∈ (sortEntries (jsonFields env h r)).keys := by
    rw [(sortEntries_keys_perm _).mem_iff]
    exact List.mem_map.mpr ⟨(k, v), GoMap.mem_of_get? _ k v hget, rfl⟩
  exact List.count_eq_one_of_mem hnd hmem

/-! ## C15: the level and msg fields in colored-JSON mode -/

/-- C15, at an info record with message "Test message" and a record attribute
whose key is "msg": the msg field of the serialised object is the value of the
attribute, not the message; likewise a bound attribute with the key "level"
replaces the level field. -/
theorem Handle_json_msg_replaced :
    (NewColoredHandler Writer.stdout none true).Handle sampleEnv
      { Time := { unixNano := 0, zoneOffset := 0 }, Message := "Test message",
        Level := LevelInfo, PC := 0, attrs := [{ Key := "msg", Value := Any.str "x" }] }
      = (none, ["\x1b[32m\x7b\n  \"level\": \"INFO\",\n  \"msg\": \"x\",\n" ++
          "  \"time\": \"2024-01-01T12:00:00Z\"\n\x7d\x1b[0m\n"]) ∧
    (jsonFields sampleEnv (NewColoredHandler Writer.stdout none true)
      { Time := { unixNano := 0, zoneOffset := 0 }, Message := "Test message",
        Level := LevelInfo, PC := 0,
        attrs := [{ Key := "msg", Value := Any.str "x" }] }).get? "msg"
      ≠ some (Any.str "Test message") ∧
    (jsonFields sampleEnv ((NewColoredHandler Writer.stdout none true).WithAttrs
        [{ Key := "level", Value := Any.int 7 }])
      { Time := { unixNano := 0, zoneOffset := 0 }, Message := "Test message",
        Level := LevelInfo, PC := 0, attrs := [] }).get? "level"
      ≠ some (Any.str "INFO") := by
  refine ⟨by decide, by decide, by decide⟩

/-- C15, amended: in colored-JSON mode, for every record with level L and
message m, the level field of the serialised object is the name of L as
`slog.Level.String` gives it provided no bound or record attribute has the key
"level", and its msg field is m provided no bound or record attribute has the
key "msg"; when the serialisation succeeds the text written holds the
field. -/
theorem Handle_json_level_msg (env : Env) (c : JSONCodec) (h : ColoredHandler) (r : Record)
    (hjson : h.useJSON = true) (henv : env.marshalIndent = goMarshalIndent c) :
    ((∀ a ∈ h.attrs ++ r.attrs, a.Key ≠ "level") →
      (jsonFields env h r).get? "level" = some (Any.str (levelString r.Level)) ∧
      ((h.Handle env r).1 = none →
        occursIn (c.quote "level" ++ ": " ++ c.quote (levelString r.Level))
          (written (h.Handle env r).2))) ∧
    ((∀ a ∈ h.attrs ++ r.attrs, a.Key ≠ "msg") →
      (jsonFields env h r).get? "msg" = some (Any.str r.Message) ∧
      ((h.Handle env r).1 = none →
        occursIn (c.quote "msg" ++ ": " ++ c.quote r.Message)
          (written (h.Handle env r).2))) ∧
    (levelString LevelDebug = "DEBUG" ∧ levelString LevelInfo = "INFO" ∧
      levelString LevelWarn = "WARN" ∧ levelString LevelError = "ERROR") := by
  have key : ∀ k : String, (∀ a ∈ h.attrs ++ r.attrs, a.Key ≠ k) →
      (jsonFields env h r).get? k = (standardFields env h r).get? k := by
    intro k hall
    have h1 : lastValue k r.attrs = none :=
      (lastValue_none_iff k r.attrs).2 (fun a ha => hall a (List.mem_append_right _ ha))
    have h2 : lastValue k h.attrs = none :=
      (lastValue_none_iff k h.attrs).2 (fun a ha => hall a (List.mem_append_left _ ha))
    rw [jsonFields_get?, h1, h2]
  refine ⟨?_, ?_, by decide, by decide, by decide, by decide⟩
  · intro hall
    have hget : (jsonFields env h r).get? "level" = some (Any.str (levelString r.Level)) := by
      rw [key "level" hall]
      exact (standardFields_level_msg env h r).1
    refine ⟨hget, ?_⟩
    intro hnone
    obtain ⟨t, ht, hocc⟩ := field_occurs env c h r hjson henv hnone "level" _ hget
    have : t = c.quote (levelString r.Level) := by
      simp only [JSONCodec.value] at ht
      exact (Except.ok.inj ht).symm
    rw [← this]
    exact hocc
  · intro hall
    have hget : (jsonFields env h r).get? "msg" = some (Any.str r.Message) := by
      rw [key "msg" hall]
      exact (standardFields_level_msg env h r).2
    refine ⟨hget, ?_⟩
    intro hnone
    obtain ⟨t, ht, hocc⟩ := field_occurs env c h r hjson henv hnone "msg" _ hget
    have : t = c.quote r.Message := by
      simp only [JSONCodec.value] at ht
      exact (Except.ok.inj ht).symm
    rw [← this]
    exact hocc

theorem Handle_json_level_msg_witness :
    occursIn "\"level\": \"INFO\""
      (written ((NewColoredHandler Writer.stdout none true).Handle sampleEnv
        { Time := { unixNano := 0, zoneOffset := 0 }, Message := "Test message",
          Level := LevelInfo, PC := 0,
          attrs := [{ Key := "key", Value := Any.str "value" }] }).2) ∧
    occursIn "\"msg\": \"Test message\""
      (written ((NewColoredHandler Writer.stdout none true).Handle sampleEnv
        { Time := { unixNano := 0, zoneOffset := 0 }, Message := "Test message",
          Level := LevelInfo, PC := 0,
          attrs := [{ Key := "key", Value := Any.str "value" }] }).2) := by
  have key := Handle_json_level_msg sampleEnv sampleCodec
    (NewColoredHandler Writer.stdout none true)
    { Time := { unixNano := 0, zoneOffset := 0 }, Message := "Test message",
      Level := LevelInfo, PC := 0,
      attrs := [{ Key := "key", Value := Any.str "value" }] } rfl rfl
  exact ⟨(key.1 (by decide)).2 (by decide), (key.2.1 (by decide)).2 (by decide)⟩

/-! ## C16: attributes with the same key in colored-JSON mode -/

/-- C16, at a handler with the bound attributes k=1 and k=2 and a record
without attributes: no record attribute uses the key k, yet the bound attribute
k=1 does not keep its value; the object holds k once, with the value 2. -/
theorem Handle_json_bound_replaced :
    ({ Key := "k", Value := Any.int 1 } : Attr) ∈
      ((NewColoredHandler Writer.stdout none true).WithAttrs
        [{ Key := "k", Value := Any.int 1 }, { Key := "k", Value := Any.int 2 }]).attrs ∧
    (jsonFields sampleEnv ((NewColoredHandler Writer.stdout none true).WithAttrs
        [{ Key := "k", Value := Any.int 1 }, { Key := "k", Value := Any.int 2 }])
      { Time := { unixNano := 0, zoneOffset := 0 }, Message := "m",
        Level := LevelInfo, PC := 0, attrs := [] }).get? "k" = some (Any.int 2) ∧
    ((NewColoredHandler Writer.stdout none true).WithAttrs
        [{ Key := "k", Value := Any.int 1 }, { Key := "k", Value := Any.int 2 }]).Handle
      sampleEnv
      { Time := { unixNano := 0, zoneOffset := 0 }, Message := "m",
        Level := LevelInfo, PC := 0, attrs := [] }
      = (none, ["\x1b[32m\x7b\n  \"k\": 2,\n  \"level\": \"INFO\",\n  \"msg\": \"m\",\n" ++
          "  \"time\": \"2024-01-01T12:00:00Z\"\n\x7d\x1b[0m\n"]) := by
  refine ⟨by decide, by decide, by decide⟩

/-- C16, amended: in colored-JSON mode the serialised object holds every key
exactly once, and the value of an attribute key is that of the last attribute
with this key in the sequence of the bound attributes followed by the record
attributes: the last record attribute with a key gives its value, and a bound
attribute whose key no record attribute and no later bound attribute uses keeps
its own value. -/
theorem Handle_json_last_write_wins (env : Env) (c : JSONCodec) (h : ColoredHandler)
    (r : Record) (hjson : h.useJSON = true) (henv : env.marshalIndent = goMarshalIndent c) :
    (sortEntries (jsonFields env h r)).keys.Nodup ∧
    (∀ pre a post, r.attrs = pre ++ a :: post → (∀ b ∈ post, b.Key ≠ a.Key) →
      (jsonFields env h r).get? a.Key = some a.Value ∧
      (sortEntries (jsonFields env h r)).keys.count a.Key = 1 ∧
      ((h.Handle env r).1 = none → ∃ t, c.value a.Value "" "  " = Except.ok t ∧
        occursIn (c.quote a.Key ++ ": " ++ t) (written (h.Handle env r).2))) ∧
    (∀ pre a post, h.attrs = pre ++ a :: post → (∀ b ∈ post, b.Key ≠ a.Key) →
      (∀ b ∈ r.attrs, b.Key ≠ a.Key) →
      (jsonFields env h r).get? a.Key = some a.Value ∧
      (sortEntries (jsonFields env h r)).keys.count a.Key = 1 ∧
      ((h.Handle env r).1 = none → ∃ t, c.value a.Value "" "  " = Except.ok t ∧
        occursIn (c.quote a.Key ++ ": " ++ t) (written (h.Handle env r).2))) := by
  refine ⟨(sortEntries_keys_perm _).nodup_iff.mpr (jsonFields_nodup env h r), ?_, ?_⟩
  · intro pre a post hsplit hpost
    have hget : (jsonFields env h r).get? a.Key = some a.Value := by
      rw [jsonFields_get?, hsplit, lastValue_last a.Key a post rfl hpost pre]
    exact ⟨hget, sorted_count_one env h r _ _ hget,
      fun hnone => field_occurs env c h r hjson henv hnone _ _ hget⟩
  · intro pre a post hsplit hpost hrec
    have hget : (jsonFields env h r).get? a.Key = some a.Value := by
      rw [jsonFields_get?, (lastValue_none_iff a.Key r.attrs).2 hrec, hsplit,
        lastValue_last a.Key a post rfl hpost pre]
    exact ⟨hget, sorted_count_one env h r _ _ hget,
      fun hnone => field_occurs env c h r hjson henv hnone _ _ hget⟩

theorem Handle_json_last_write_wins_witness :
    (jsonFields sampleEnv ((NewColoredHandler Writer.stdout none true).WithAttrs
        [{ Key := "key", Value := Any.str "bound" }, { Key := "service", Value := Any.str "test" }])
      { Time := { unixNano := 0, zoneOffset := 0 }, Message := "m",
        Level := LevelInfo, PC := 0,
        attrs := [{ Key := "key", Value := Any.str "value" }] }).get? "key"
      = some (Any.str "value") ∧
    (jsonFields sampleEnv ((NewColoredHandler Writer.stdout none true).WithAttrs
        [{ Key := "key", Value := Any.str "bound" }, { Key := "service", Value := Any.str "test" }])
      { Time := { unixNano := 0, zoneOffset := 0 }, Message := "m",
        Level := LevelInfo, PC := 0,
        attrs := [{ Key := "key", Value := Any.str "value" }] }).get? "service"
      = some (Any.str "test") := by
  have key := Handle_json_last_write_wins sampleEnv sampleCodec
    ((NewColoredHandler Writer.stdout none true).WithAttrs
      [{ Key := "key", Value := Any.str "bound" }, { Key := "service", Value := Any.str "test" }])
    { Time := { unixNano := 0, zoneOffset := 0 }, Message := "m",
      Level := LevelInfo, PC := 0,
      attrs := [{ Key := "key", Value := Any.str "value" }] } rfl rfl
  exact ⟨(key.2.1 [] { Key := "key", Value := Any.str "value" } [] rfl (by decide)).1,
    (key.2.2 [{ Key := "key", Value := Any.str "bound" }]
      { Key := "service", Value := Any.str "test" } [] (by decide) (by decide) (by decide)).1⟩

/-! ## C20: the global functions and the mock -/

theorem copy_replicate_self {α : Type} (z : α) (l : List α) :
    copy (List.replicate l.length z) l = l := by
  have h := copy_replicate z l 0
  simpa using h

theorem foldl_append_singleton {α : Type} : ∀ (l acc : List α),
    l.foldl (fun acc a => acc ++ [a]) acc = acc ++ l
  | [], acc => by simp
  | a :: l, acc => by
    simp [foldl_append_singleton l (acc ++ [a])]

theorem MockLogger.Handle_eq (l : MockLogger) (r : Record) :
    l.Handle r = (none,
      { l with
        logs := l.logs ++
          [{ Level := r.Level, Message := r.Message, Attrs := l.attrs ++ r.attrs }] }) := by
  unfold MockLogger.Handle
  simp only [copy_replicate_self, foldl_append_singleton]

theorem MockLogger.GetLogs_eq (l : MockLogger) : l.GetLogs = l.logs := by
  unfold MockLogger.GetLogs
  simp only [copy_replicate_self]

theorem exec_global_mock (se : SlogEnv) (env : Env) (k : Nat) (c : GlobalCall)
    (w : World) (s : Sinks) (m : MockLogger)
    (hw : w.defaultLogger = some { handler := Handler.mock k })
    (hs : s.mocks[k]? = some m) :
    (exec se env c.run (w, s)).1.defaultLogger = some { handler := Handler.mock k } ∧
    (exec se env c.run (w, s)).2.mocks[k]? = some
      { m with
        logs := m.logs ++
          [{ Level := c.fn.level, Message := c.msg,
             Attrs := m.attrs ++ se.argsToAttrs c.args }] } := by
  have hk : k < s.mocks.length := by
    by_contra hge
    rw [List.getElem?_eq_none (by omega)] at hs
    exact Option.noConfusion hs
  rcases c with ⟨fn, msg, args⟩
  cases fn <;>
    simp [exec, GlobalCall.run, Debug, Info, Warn, Error, Default, hw, SlogLogger.Debug,
      SlogLogger.Info, SlogLogger.Warn, SlogLogger.Error, Sinks.deliverFrom, Sinks.deliver,
      Handler.Enabled, Handler.Handle, hs, MockLogger.Handle_eq, GlobalFn.level, hk]

theorem runGlobal_mock (se : SlogEnv) (env : Env) (k : Nat) :
    ∀ (calls : List GlobalCall) (w : World) (s : Sinks) (m : MockLogger),
      w.defaultLogger = some { handler := Handler.mock k } → s.mocks[k]? = some m →
      (runGlobal se env calls (w, s)).2.mocks[k]? = some
        { m with
          logs := m.logs ++ calls.map (fun c =>
            { Level := c.fn.level, Message := c.msg,
              Attrs := m.attrs ++ se.argsToAttrs c.args }) }
  | [], w, s, m, _, hs => by
    simp [runGlobal, hs]
  | c :: cs, w, s, m, hw, hs => by
    have hstep := exec_global_mock se env k c w s m hw hs
    have ih := runGlobal_mock se env k cs (exec se env c.run (w, s)).1
      (exec se env c.run (w, s)).2 _ hstep.1 hstep.2
    have hrun : runGlobal se env (c :: cs) (w, s)
        = runGlobal se env cs ((exec se env c.run (w, s)).1, (exec se env c.run (w, s)).2) := rfl
    rw [hrun, ih]
    simp

/-- C20: after `SetDefault(mock)` with a fresh mock logger, every sequence of
calls of the global `Debug`, `Info`, `Warn` and `Error` is recorded by the mock
as exactly one entry per call, in call order, each with the level of the
function called and the message passed; one call per level gives four entries
with the levels debug, info, warn, error. -/
theorem global_calls_recorded (se : SlogEnv) (env : Env) (w0 : World) (s0 : Sinks)
    (calls : List GlobalCall) :
    (runGlobal se env calls
        (SetDefault (some (NewMockLogger s0).1) w0, (NewMockLogger s0).2)).2.GetLogs
        s0.mocks.length
      = some (calls.map (fun c => { Level := c.fn.level, Message := c.msg,
                                    Attrs := se.argsToAttrs c.args })) ∧
    ((runGlobal se env
        [{ fn := GlobalFn.Debug, msg := "debug message", args := [] },
         { fn := GlobalFn.Info, msg := "info message", args := [] },
         { fn := GlobalFn.Warn, msg := "warn message", args := [] },
         { fn := GlobalFn.Error, msg := "error message", args := [] }]
        (SetDefault (some (NewMockLogger s0).1) w0, (NewMockLogger s0).2)).2.GetLogs
        s0.mocks.length).map (fun logs => logs.map (fun e => (e.Level, e.Message)))
      = some [(LevelDebug, "debug message"), (LevelInfo, "info message"),
              (LevelWarn, "warn message"), (LevelError, "error message")] := by
  have key : ∀ cs : List GlobalCall,
      (runGlobal se env cs
        (SetDefault (some (NewMockLogger s0).1) w0, (NewMockLogger s0).2)).2.GetLogs
        s0.mocks.length
      = some (cs.map (fun c => { Level := c.fn.level, Message := c.msg,
                                 Attrs := se.argsToAttrs c.args })) := by
    intro cs
    have hw : (SetDefault (some (NewMockLogger s0).1) w0).defaultLogger
        = some { handler := Handler.mock s0.mocks.length } := rfl
    have hs : (NewMockLogger s0).2.mocks[s0.mocks.length]?
        = some { logs := [], attrs := [] } := by
      simp [NewMockLogger]
    have h := runGlobal_mock se env s0.mocks.length cs _ _ _ hw hs
    unfold Sinks.GetLogs
    rw [h]
    simp [MockLogger.GetLogs_eq]
  refine ⟨key calls, ?_⟩
  rw [key]
  rfl

/-! ## C21: the threshold check is monotonic -/

/-- C21: raising the threshold never enables anything new: for thresholds
`T1 <= T2` and every level `L`, if a colored handler with threshold `T2` is
enabled for `L` then a colored handler with threshold `T1` is enabled for
`L`. -/
theorem ColoredHandler.Enabled_monotone (h1 h2 : ColoredHandler) (T1 T2 L : Level)
    (hT : T1 ≤ T2) (ht1 : h1.opts.Level = some T1) (ht2 : h2.opts.Level = some T2)
    (hen : h2.Enabled L = true) : h1.Enabled L = true := by
  simp only [ColoredHandler.Enabled, ht2, decide_eq_true_eq] at hen
  simp only [ColoredHandler.Enabled, ht1, decide_eq_true_eq]
  exact le_trans hT hen

theorem ColoredHandler.Enabled_monotone_witness :
    (NewColoredHandler Writer.stdout (some { Level := some LevelWarn }) false).Enabled
      LevelError = true ∧
    (NewColoredHandler Writer.stdout (some { Level := some LevelDebug }) true).Enabled
      LevelError = true := by
  have h2 : (NewColoredHandler Writer.stdout (some { Level := some LevelWarn }) false).Enabled
      LevelError = true := by decide
  exact ⟨h2, ColoredHandler.Enabled_monotone
    (NewColoredHandler Writer.stdout (some { Level := some LevelDebug }) true)
    (NewColoredHandler Writer.stdout (some { Level := some LevelWarn }) false)
    LevelDebug LevelWarn LevelError (by decide) rfl rfl h2⟩

/-! ## C22: derivation with a group -/

theorem copy_replicate_set {α : Type} (z a : α) (l : List α) :
    (copy (List.replicate (l.length + 1) z) l).set l.length a = l ++ [a] := by
  rw [copy_replicate z l 1]
  simp

theorem ColoredHandler.WithGroup_eq (h : ColoredHandler) (name : String) :
    h.WithGroup name = { h with groups := h.groups ++ [name] } := by
  unfold ColoredHandler.WithGroup
  simp only [copy_replicate_set, List.nil_append]

/-- C22: `WithGroup(name)` extends the group path by `name` and copies the bound
attributes as they are, and the group path never affects rendering: for every
handler, group name and record, `Handle` on the derived handler returns the same
result and makes the same writes as `Handle` on the receiver, in both modes. -/
theorem ColoredHandler.WithGroup_rendering (env : Env) (h : ColoredHandler) (name : String)
    (r : Record) :
    (h.WithGroup name).groups = h.groups ++ [name] ∧
    (h.WithGroup name).attrs = h.attrs ∧
    (h.WithGroup name).opts = h.opts ∧
    (h.WithGroup name).w = h.w ∧
    (h.WithGroup name).useJSON = h.useJSON ∧
    (h.WithGroup name).Handle env r = h.Handle env r ∧
    written ((h.WithGroup name).Handle env r).2 = written (h.Handle env r).2 := by
  rw [ColoredHandler.WithGroup_eq]
  exact ⟨rfl, rfl, rfl, rfl, rfl, rfl, rfl⟩

/-! ## C23: the record `Init` emits -/

theorem New_handler_enabled (cfg : Config) (lg : SlogLogger) (hvalid : cfg.Level ∈ levelNames)
    (hnew : New cfg = (some lg, none)) (L : Level) :
    lg.handler.Enabled L = decide (L ≥ (parseLogLevel cfg.Level).1) := by
  rw [New_of_valid cfg hvalid] at hnew
  have hlg := Option.some.inj (congrArg Prod.fst hnew)
  rw [← hlg]
  simp only []
  split_ifs <;>
    simp [Handler.Enabled, ColoredHandler.Enabled, NewColoredHandler, optsOf]

theorem Init_of_new (cfg : Config) (lg : SlogLogger) (hnew : New cfg = (some lg, none))
    (w : World) :
    Init cfg w = (none,
      { w with
        defaultLogger := some lg,
        calls := w.calls ++ [{ logger := lg, level := LevelInfo,
                               msg := "Logger initialized", args := initArgs cfg }] }) := by
  unfold Init
  rw [hnew]
  rfl

theorem exec_Init (se : SlogEnv) (env : Env) (cfg : Config) (lg : SlogLogger)
    (hnew : New cfg = (some lg, none)) (w : World) (s : Sinks) :
    (exec se env (fun w => (Init cfg w).2) (w, s)).2 =
      if lg.handler.Enabled LevelInfo then
        lg.handler.Handle se env (initRecord se cfg w.calls.length) s
      else s := by
  simp only [exec, Init_of_new cfg lg hnew, List.drop_left, Sinks.deliverFrom, Sinks.deliver]
  rfl

/-- C23, at a configuration with level "error" (JSON format, no colors): `Init`
succeeds and makes its one info-level call, but the logger drops the record and
nothing is written; with level "info" the same configuration writes one
record. -/
theorem Init_error_level_renders_nothing :
    (Init { Level := "error", Format := "json", EnableCaller := true,
            EnableStacktrace := true, EnableColors := false,
            Environment := "production" } {}).1 = none ∧
    (exec sampleSlogEnv sampleEnv (fun w => (Init
        { Level := "error", Format := "json", EnableCaller := true,
          EnableStacktrace := true, EnableColors := false,
          Environment := "production" } w).2) ({}, {})).1.calls.length = 1 ∧
    (exec sampleSlogEnv sampleEnv (fun w => (Init
        { Level := "error", Format := "json", EnableCaller := true,
          EnableStacktrace := true, EnableColors := false,
          Environment := "production" } w).2) ({}, {})).2.writes = [] ∧
    (exec sampleSlogEnv sampleEnv (fun w => (Init
        { Level := "info", Format := "json", EnableCaller := true,
          EnableStacktrace := true, EnableColors := false,
          Environment := "production" } w).2) ({}, {})).2.writes.length = 1 := by
  refine ⟨by decide, by decide, by decide, by decide⟩

/-- C23, amended: for every configuration with a valid level, `Init` returns no
error, installs the newly built logger as the global default and then makes
exactly one info-level call (message "Logger initialized" with the level,
format, caller, stacktrace, environment and colors settings) on that logger; the
record is handed to the handler, once, when the configured level is "debug" or
"info", and with "warn" or "error" the logger drops it and nothing is
written. -/
theorem Init_emits (se : SlogEnv) (env : Env) (cfg : Config) (w : World) (s : Sinks)
    (hvalid : cfg.Level ∈ levelNames) :
    ∃ lg, New cfg = (some lg, none) ∧
      (Init cfg w).1 = none ∧
      (Init cfg w).2.defaultLogger = some lg ∧
      (Init cfg w).2.calls = w.calls ++
        [{ logger := lg, level := LevelInfo, msg := "Logger initialized",
           args := initArgs cfg }] ∧
      ((cfg.Level = "debug" ∨ cfg.Level = "info") →
        (exec se env (fun w => (Init cfg w).2) (w, s)).2
          = lg.handler.Handle se env (initRecord se cfg w.calls.length) s) ∧
      ((cfg.Level = "warn" ∨ cfg.Level = "error") →
        (exec se env (fun w => (Init cfg w).2) (w, s)).2 = s) := by
  have hnew := New_of_valid cfg hvalid
  refine ⟨_, hnew, ?_, ?_, ?_, ?_, ?_⟩
  · rw [Init_of_new cfg _ hnew]
  · rw [Init_of_new cfg _ hnew]
  · rw [Init_of_new cfg _ hnew]
  · intro hl
    rw [exec_Init se env cfg _ hnew, New_handler_enabled cfg _ hvalid hnew]
    rcases hl with hl | hl <;> rw [hl] <;> rfl
  · intro hl
    rw [exec_Init se env cfg _ hnew, New_handler_enabled cfg _ hvalid hnew]
    rcases hl with hl | hl <;> rw [hl] <;> rfl

theorem Init_emits_witness :
    (exec sampleSlogEnv sampleEnv (fun w => (Init
        { Level := "warn", Format := "console", EnableCaller := true,
          EnableStacktrace := true, EnableColors := true,
          Environment := "production" } w).2) ({}, {})).2 = {} := by
  obtain ⟨lg, -, -, -, -, -, h6⟩ := Init_emits sampleSlogEnv sampleEnv
    { Level := "warn", Format := "console", EnableCaller := true,
      EnableStacktrace := true, EnableColors := true,
      Environment := "production" } {} {} (by decide)
  exact h6 (Or.inl rfl)

/-! ## C24: a derived mock handler and the log of its parent -/

/-- C24, at a fresh mock logger: a handler derived from it with `WithAttrs` (or
with `WithGroup`) records the entry of a record it handles in its own log, and
the entries `GetLogs` returns on the parent stay empty. -/
theorem mock_derived_entry_not_in_parent :
    (NewMockLogger {}).2.mockWithAttrs 0 [{ Key := "service", Value := Any.str "test" }]
      = some (1, { mocks := [{ logs := [], attrs := [] },
                             { logs := [],
                               attrs := [{ Key := "service", Value := Any.str "test" }] }] }) ∧
    (Handler.Handle sampleSlogEnv sampleEnv (Handler.mock 1)
        { Time := { unixNano := 0, zoneOffset := 0 }, Message := "from derived",
          Level := LevelInfo, PC := 0, attrs := [] }
        { mocks := [{ logs := [], attrs := [] },
                    { logs := [],
                      attrs := [{ Key := "service", Value := Any.str "test" }] }] }).GetLogs 1
      = some [{ Level := LevelInfo, Message := "from derived",
                Attrs := [{ Key := "service", Value := Any.str "test" }] }] ∧
    (Handler.Handle sampleSlogEnv sampleEnv (Handler.mock 1)
        { Time := { unixNano := 0, zoneOffset := 0 }, Message := "from derived",
          Level := LevelInfo, PC := 0, attrs := [] }
        { mocks := [{ logs := [], attrs := [] },
                    { logs := [],
                      attrs := [{ Key := "service", Value := Any.str "test" }] }] }).GetLogs 0
      = some [] ∧
    (NewMockLogger {}).2.mockWithGroup 0 "g"
      = some (1, { mocks := [{ logs := [], attrs := [] },
                             { logs := [], attrs := [], groups := ["g"] }] }) ∧
    (Handler.Handle sampleSlogEnv sampleEnv (Handler.mock 1)
        { Time := { unixNano := 0, zoneOffset := 0 }, Message := "from derived",
          Level := LevelInfo, PC := 0, attrs := [] }
        { mocks := [{ logs := [], attrs := [] },
                    { logs := [], attrs := [], groups := ["g"] }] }).GetLogs 0
      = some [] := by
  refine ⟨by decide, by decide, by decide, by decide, by decide⟩

/-! ## C25: the format "text" -/

/-- C25, at the configuration of the text logger of the formatting example
(level "info", format "text", nothing else set): `New` selects the JSON handler
of `log/slog`, not the text handler. -/
theorem New_text_format_selects_json :
    New { Level := "info", Format := "text", EnableCaller := false,
          EnableStacktrace := false, EnableColors := false, Environment := "" }
      = (some (SlogLogger.mk (Handler.json Writer.stdout
          { Level := some LevelInfo, AddSource := false })), none) ∧
    New { Level := "info", Format := "text", EnableCaller := false,
          EnableStacktrace := false, EnableColors := false, Environment := "" }
      ≠ (some (SlogLogger.mk (Handler.text Writer.stdout
          { Level := some LevelInfo, AddSource := false })), none) ∧
    New { Level := "info", Format := "console", EnableCaller := false,
          EnableStacktrace := false, EnableColors := false, Environment := "" }
      = (some (SlogLogger.mk (Handler.text Writer.stdout
          { Level := some LevelInfo, AddSource := false })), none) := by
  refine ⟨by decide, by decide, by decide⟩

end Logger
